import Mathlib

/-!
A shallow embedding of `src/student_feedback_manager.py` (class
`StudentFeedbackManager`).  The mutable dataframe `self.df` is modelled as an
explicit `DF` value threaded through the operations; pandas cells are modelled
by the dynamic value type `PValue`.  Python / pandas string and numeric
primitives (`str.strip`, `str.lower`, `int(...)`, the `read_csv` numeric
inference) are modelled by hand-rolled, structurally recursive functions over
`List Char` so that every definition evaluates inside the kernel.  The model
of pandas behaviour (CSV quoting, NA tokens, dtype inference) follows the
documented default behaviour of `read_csv`/`to_csv` with `sep='|'`; exotic
features that the repository never exercises (exponent literals, thousands
separators, bool/date dtype inference, duplicate-header mangling) are outside
the model and outside every claim proved below.
-/

/-- Python whitespace for `str.strip` / `str.split()` (ASCII subset). -/
def isPyWs (c : Char) : Bool :=
  c == ' ' || c == '\t' || c == '\n' || c == '\r' || c == '\x0b' || c == '\x0c'

/-- `str.strip()` on a character list: drop whitespace from both ends. -/
def pyStrip (cs : List Char) : List Char :=
  ((cs.dropWhile isPyWs).reverse.dropWhile isPyWs).reverse

/-- ASCII lower-casing, the fragment of `str.lower()` the keyword lists use. -/
def lowerChar (c : Char) : Char :=
  if 'A' ≤ c ∧ c ≤ 'Z' then Char.ofNat (c.toNat + 32) else c

/-- `str.lower()` (ASCII fragment). -/
def pyLower (s : String) : String := String.mk (s.data.map lowerChar)

/-- Split a character list on a separator character, keeping empty chunks,
as Python `str.split(sep)` does (`"".split('.') == ['']`). -/
def splitOnChar (sep : Char) : List Char → List (List Char)
  | [] => [[]]
  | c :: t =>
    let r := splitOnChar sep t
    if c == sep then [] :: r
    else
      match r with
      | [] => [[c]]
      | h :: t2 => (c :: h) :: t2

/-- Whitespace-splitting with empty chunks discarded, as Python `str.split()`
with no argument does.  `cur` holds the current chunk reversed. -/
def splitWsAux : List Char → List Char → List (List Char)
  | [], cur => if cur.isEmpty then [] else [cur.reverse]
  | c :: t, cur =>
    if isPyWs c then
      if cur.isEmpty then splitWsAux t [] else cur.reverse :: splitWsAux t []
    else splitWsAux t (c :: cur)

/-- The whitespace-delimited words of a string (Python `s.split()`). -/
def pyWords (s : String) : List (List Char) := splitWsAux s.data []

/-- Contiguous-substring test, Python's `needle in hay` on strings. -/
def containsSub (needle : List Char) : List Char → Bool
  | [] => needle.isEmpty
  | c :: t => needle.isPrefixOf (c :: t) || containsSub needle t

/-- Value of a decimal digit character. -/
def digOfChar (c : Char) : Option Nat :=
  if '0' ≤ c ∧ c ≤ '9' then some (c.toNat - 48) else none

def digitsValAux : List Char → Nat → Option Nat
  | [], acc => some acc
  | c :: t, acc =>
    match digOfChar c with
    | some d => digitsValAux t (acc * 10 + d)
    | none => none

/-- Value of a non-empty all-digit character list. -/
def digitsVal : List Char → Option Nat
  | [] => none
  | c :: t => digitsValAux (c :: t) 0

/-- Like `digitsVal` but an empty list counts as 0 — used for the optional
integer / fractional parts around the decimal point of a float literal. -/
def digitsVal0 : List Char → Option Nat
  | [] => some 0
  | c :: t => digitsValAux (c :: t) 0

/-- Python's `int(s)` on a decimal string, also the integer recognizer of the
pandas tokenizer: optional surrounding whitespace, optional sign, then a
non-empty digit run. -/
def parseIntS (s : String) : Option Int :=
  match pyStrip s.data with
  | '-' :: rest => (digitsVal rest).map (fun n => -(n : Int))
  | '+' :: rest => (digitsVal rest).map (fun n => (n : Int))
  | cs => (digitsVal cs).map (fun n => (n : Int))

/-- Unsigned decimal float literal: `digits`, `digits.digits?`, `.digits`.
The value `ip.fp` is returned as the scaled pair
(`ip * 10^len(fp) + fp`, `10^len(fp)`), i.e. numerator and power-of-ten
denominator, so that the caller can build the rational with one `mkRat`. -/
def parseUFloat (cs : List Char) : Option (Int × Nat) :=
  match splitOnChar '.' cs with
  | [ds] => (digitsVal ds).map (fun n => ((n : Int), 1))
  | [as, bs] =>
    if as.isEmpty && bs.isEmpty then none
    else
      match digitsVal0 as, digitsVal0 bs with
      | some ip, some fp =>
        some (((ip * 10 ^ bs.length + fp : Nat) : Int), 10 ^ bs.length)
      | _, _ => none
  | _ => none

/-- The float recognizer of the pandas tokenizer (fixed-point literals with an
optional sign; exponent forms are outside the model). -/
def parseFloatS (s : String) : Option ℚ :=
  match pyStrip s.data with
  | '-' :: rest => (parseUFloat rest).map (fun p => mkRat (-p.1) p.2)
  | '+' :: rest => (parseUFloat rest).map (fun p => mkRat p.1 p.2)
  | cs => (parseUFloat cs).map (fun p => mkRat p.1 p.2)

/-- Decimal digits of a natural number (fuel-based so it is structural). -/
def natStrAux : Nat → Nat → List Char → List Char
  | 0, _, acc => acc
  | fuel + 1, n, acc =>
    if n < 10 then Nat.digitChar n :: acc
    else natStrAux fuel (n / 10) (Nat.digitChar (n % 10) :: acc)

/-- `str(n)` for a natural number. -/
def natStr (n : Nat) : String := String.mk (natStrAux (n + 1) n [])

/-- `str(n)` for an integer. -/
def intStr (n : Int) : String :=
  if n < 0 then "-" ++ natStr n.natAbs else natStr n.natAbs

/-- `str(x)` for a float holding a two-decimal value `q` (`|q|` small, as all
scores are): Python prints the shortest decimal, e.g. `0.5`, `0.05`, `1.0`,
`-0.3`.  Values that are not two-decimal rationals do not occur in the store;
for them the function just prints `floor(q*100)/100`. -/
def floatStr (q : ℚ) : String :=
  let n : Int := Int.fdiv (q.num * 100) (q.den : Int)
  let sign := if n < 0 then "-" else ""
  let m := n.natAbs
  let ip := m / 100
  let fr := m % 100
  let fracStr :=
    if fr = 0 then "0"
    else if fr % 10 = 0 then String.mk [Nat.digitChar (fr / 10)]
    else String.mk [Nat.digitChar (fr / 10), Nat.digitChar (fr % 10)]
  sign ++ natStr ip ++ "." ++ fracStr

/-- A pandas cell: a Python string, an int64 value, a float64 value (our
floats are the exact two-decimal rationals the program produces), or NaN. -/
inductive PValue where
  | s (v : String)
  | i (v : Int)
  | f (v : ℚ)
  | nan
  deriving DecidableEq, Repr

/-- `str(x)` on a cell, as `astype(str)` applies it (`str(nan) = "nan"`). -/
def pvStr : PValue → String
  | .s v => v
  | .i v => intStr v
  | .f v => floatStr v
  | .nan => "nan"

/-- The default NA tokens of `pandas.read_csv` (empty field included). -/
def naTokens : List String :=
  ["", "#N/A", "#N/A N/A", "#NA", "-1.#IND", "-1.#QNAN", "-NaN", "-nan",
   "1.#IND", "1.#QNAN", "<NA>", "N/A", "NA", "NULL", "NaN", "None",
   "n/a", "nan", "null"]

/-- `pandas.to_numeric(x, errors='coerce')` on one cell: numbers pass
through, numeric strings are parsed, everything else becomes NaN. -/
def to_numeric : PValue → PValue
  | .s v =>
    match parseIntS v with
    | some n => .i n
    | none =>
      match parseFloatS v with
      | some q => .f q
      | none => .nan
  | .i n => .i n
  | .f q => .f q
  | .nan => .nan

/-- The dataframe `self.df`: a header (column names) and rows of cells, each
row aligned with the header. -/
structure DF where
  cols : List String
  rows : List (List PValue)
  deriving DecidableEq, Repr

/-- `self.columns`, the fixed schema. -/
def columns : List String :=
  ["Registration_No", "Student_Name", "Course", "Feedback", "Sentiment",
   "Sentiment_Score", "Subjectivity", "Emotions", "Key_Phrases", "Rating",
   "Date"]

/-- The empty dataframe with the schema columns,
`pd.DataFrame(columns=self.columns)`. -/
def emptyDF : DF := ⟨columns, []⟩

/-- Index of the first column with the given name. -/
def colIdx? (name : String) : List String → Option Nat
  | [] => none
  | c :: t => if c == name then some 0 else (colIdx? name t).map (fun i => i + 1)

/-- Read the cell of column `name` from a row (NaN if the column is absent,
which never happens in reachable states). -/
def cellGet (cols : List String) (row : List PValue) (name : String) : PValue :=
  match colIdx? name cols with
  | some i => row.getD i .nan
  | none => .nan

/-- Replace the element at an index by applying `f` (identity out of range). -/
def setAt : List PValue → Nat → (PValue → PValue) → List PValue
  | [], _, _ => []
  | v :: t, 0, f => f v :: t
  | v :: t, n + 1, f => v :: setAt t n f

/-- `df[name] = df[name].apply(f)`: rewrite one column cell-wise. -/
def mapCol (df : DF) (name : String) (f : PValue → PValue) : DF :=
  match colIdx? name df.cols with
  | some i => ⟨df.cols, df.rows.map (fun r => setAt r i f)⟩
  | none => df

/-- Lexicographic order on character lists by code point — Python's string
comparison, which pandas `sort_values` uses on an object column. -/
def lexLe : List Char → List Char → Bool
  | [], _ => true
  | _ :: _, [] => false
  | a :: as, b :: bs => if a = b then lexLe as bs else decide (a < b)

/-- Python string `<=`. -/
def strLeB (a b : String) : Bool := lexLe a.data b.data

/-- Sort key of a row: the `Registration_No` cell as a string. -/
def regKey (cols : List String) (row : List PValue) : String :=
  pvStr (cellGet cols row "Registration_No")

/-- `self.df.sort_values('Registration_No')`.  `sort_values` is modelled with
insertion sort; every state the program sorts has pairwise-distinct string
keys, so the choice of sorting algorithm is not observable. -/
def sortByReg (df : DF) : DF :=
  ⟨df.cols,
   df.rows.insertionSort
     (fun r1 r2 => strLeB (regKey df.cols r1) (regKey df.cols r2) = true)⟩

/-- `self.emotion_keywords`: the curated keyword lists, in dict order. -/
def emotion_keywords : List (String × List String) :=
  [("positive", ["excellent", "great", "good", "amazing", "wonderful",
                 "helpful", "love", "enjoy", "best"]),
   ("negative", ["bad", "terrible", "poor", "worst", "difficult", "hard",
                 "confusing", "boring", "waste"]),
   ("neutral", ["okay", "fine", "average", "normal", "regular", "usual",
                "standard"])]

/-- First-occurrence deduplication with an accumulator of seen elements;
models the `list(set(...))` at the end of `extract_emotions` (CPython's set
order is unspecified, so the model fixes first-occurrence order; every claim
treats the result as a set). -/
def dedupSeen : List String → List String → List String
  | [], _ => []
  | x :: t, seen =>
    if seen.contains x then dedupSeen t seen
    else x :: dedupSeen t (x :: seen)

/-- `extract_emotions`: lower-case the text, append a category once per
keyword occurring as a substring, deduplicate. -/
def extract_emotions (text : String) : List String :=
  let t := (pyLower text).data
  dedupSeen
    (emotion_keywords.foldl
      (fun acc p =>
        p.2.foldl (fun a kw => if containsSub kw.data t then a ++ [p.1] else a) acc)
      [])
    []

/-- `extract_key_phrases`: split on `'.'`, strip each sentence, keep those
with at least 3 whitespace-delimited words, return the first 3. -/
def extract_key_phrases (text : String) : List String :=
  ((splitOnChar '.' text.data).foldl
    (fun acc cs =>
      let s2 := pyStrip cs
      if 3 ≤ (splitWsAux s2 []).length then acc ++ [String.mk s2] else acc)
    []).take 3

/-- The same extraction, transcribed from the specification's words:
trim the period-separated segments, filter by word count, take the first 3. -/
def keyPhrasesSpec (text : String) : List String :=
  (((splitOnChar '.' text.data).map pyStrip).filter
    (fun cs => 3 ≤ (splitWsAux cs []).length)).map String.mk |>.take 3

/-- Python `round(x, 2)` idealized over ℚ: round to the nearest multiple of
1/100, ties to even (Python rounds the underlying binary float, which agrees
with this on every value the claims touch).  The arithmetic is carried out on
the numerator/denominator so the kernel can evaluate it: `fl = ⌊q*100⌋` and
`rem/den` is the fractional part of `q*100`, compared against 1/2 by
cross-multiplication. -/
def round2 (q : ℚ) : ℚ :=
  let fl : Int := Int.fdiv (q.num * 100) (q.den : Int)
  let rem : Int := q.num * 100 - fl * (q.den : Int)
  let n : Int :=
    if 2 * rem < (q.den : Int) then fl
    else if (q.den : Int) < 2 * rem then fl + 1
    else if fl % 2 = 0 then fl else fl + 1
  mkRat n 100

/-- The result record of `analyze_sentiment`. -/
structure Analysis where
  sentiment : String
  score : ℚ
  subjectivity : ℚ
  emotions : List String
  key_phrases : List String
  deriving DecidableEq, Repr

/-- `analyze_sentiment`.  `TextBlob(text).sentiment` is an external library
call; it enters the model as the parameter `scorer`, returning the (polarity,
subjectivity) pair for a text. -/
def analyze_sentiment (scorer : String → ℚ × ℚ) (text : String) : Analysis :=
  let score := (scorer text).1
  let subjectivity := (scorer text).2
  let sentiment :=
    if score > mkRat 1 10 then "Positive"
    else if score < mkRat (-1) 10 then "Negative"
    else "Neutral"
  ⟨sentiment, round2 score, round2 subjectivity,
   extract_emotions text, extract_key_phrases text⟩

/-- A cell of a row rendered by `DataFrame.to_csv(sep='|')`. -/
def serializeCell : PValue → String
  | .s v => v
  | .i n => intStr n
  | .f q => floatStr q
  | .nan => ""

/-- Does `to_csv` (csv.QUOTE_MINIMAL) have to quote this field? -/
def needsQuote (s : String) : Bool :=
  s.data.any (fun c => c == '|' || c == '"' || c == '\n' || c == '\r')

/-- Double every quote character (csv escaping inside a quoted field). -/
def escQ : List Char → List Char
  | [] => []
  | c :: t => if c = '"' then '"' :: '"' :: escQ t else c :: escQ t

/-- One rendered field, quoted when needed. -/
def renderField (s : String) : List Char :=
  if needsQuote s then '"' :: (escQ s.data ++ ['"']) else s.data

/-- The fields of one row joined by the `'|'` separator. -/
def renderFields : List String → List Char
  | [] => []
  | [c] => renderField c
  | c :: t => renderField c ++ '|' :: renderFields t

/-- All rows, each terminated by a newline (the `to_csv` layout). -/
def renderTable : List (List String) → List Char
  | [] => []
  | r :: t => renderFields r ++ '\n' :: renderTable t

/-- `save_data`: `self.df.to_csv(self.file_path, sep='|', index=False)`,
returning the file contents that are written. -/
def save_data (df : DF) : String :=
  String.mk (renderTable (df.cols :: df.rows.map (fun r => r.map serializeCell)))

/-- States of the csv tokenizer (the pandas C tokenizer's field states). -/
inductive TokState where
  | fieldStart
  | inField
  | inQuoted
  | quoteInQuoted
  deriving DecidableEq, Repr

/-- Quote-aware csv tokenizer with `'|'` as separator: turns the raw file
characters into rows of raw field strings.  `field` holds the current field
reversed, `row` the current row's finished fields reversed, `acc` the
finished rows reversed. -/
def tok : List Char → TokState → List Char → List String → List (List String) →
    List (List String)
  | [], st, field, row, acc =>
    match st with
    | .fieldStart =>
      if row.isEmpty then acc.reverse
      else ((String.mk field.reverse :: row).reverse :: acc).reverse
    | _ => ((String.mk field.reverse :: row).reverse :: acc).reverse
  | c :: rest, .fieldStart, field, row, acc =>
    if c = '"' then tok rest .inQuoted field row acc
    else if c = '|' then tok rest .fieldStart [] (String.mk field.reverse :: row) acc
    else if c = '\n' then
      tok rest .fieldStart [] [] ((String.mk field.reverse :: row).reverse :: acc)
    else tok rest .inField (c :: field) row acc
  | c :: rest, .inField, field, row, acc =>
    if c = '|' then tok rest .fieldStart [] (String.mk field.reverse :: row) acc
    else if c = '\n' then
      tok rest .fieldStart [] [] ((String.mk field.reverse :: row).reverse :: acc)
    else tok rest .inField (c :: field) row acc
  | c :: rest, .inQuoted, field, row, acc =>
    if c = '"' then tok rest .quoteInQuoted field row acc
    else tok rest .inQuoted (c :: field) row acc
  | c :: rest, .quoteInQuoted, field, row, acc =>
    if c = '"' then tok rest .inQuoted ('"' :: field) row acc
    else if c = '|' then tok rest .fieldStart [] (String.mk field.reverse :: row) acc
    else if c = '\n' then
      tok rest .fieldStart [] [] ((String.mk field.reverse :: row).reverse :: acc)
    else tok rest .inField (c :: field) row acc

/-- Tokenize a whole file; blank lines are skipped
(`read_csv`'s `skip_blank_lines=True`). -/
def tokenize (contents : String) : List (List String) :=
  (tok contents.data .fieldStart [] [] []).filter (fun r => !(r == [""]))

/-- The dtype `read_csv` infers for one column. -/
inductive Dtype where
  | int
  | float
  | obj
  deriving DecidableEq, Repr

/-- Column dtype inference: int64 when every cell is an integer literal (so
in particular no NA), float64 when every cell is NA or a numeric literal,
object otherwise. -/
def colDtype (cells : List String) : Dtype :=
  if cells.all (fun c => (parseIntS c).isSome) then .int
  else if cells.all (fun c => naTokens.contains c || (parseFloatS c).isSome) then .float
  else .obj

/-- Convert one raw cell according to its column's dtype; NA tokens become
NaN in every dtype. -/
def applyDtype (dt : Dtype) (c : String) : PValue :=
  if naTokens.contains c then .nan
  else
    match dt with
    | .int =>
      match parseIntS c with
      | some n => .i n
      | none => .nan
    | .float =>
      match parseFloatS c with
      | some q => .f q
      | none => .nan
    | .obj => .s c

/-- The two `pandas` errors `load_data` can see: `EmptyDataError` (caught)
and `ParserError` for a data row wider than the established table width
(not caught). -/
inductive PdError where
  | emptyData
  | parserError
  deriving DecidableEq, Repr

deriving instance DecidableEq for Except

/-- `pd.read_csv(path, sep='|')`: tokenize and take the first row as header.
The table width is established by the wider of the header and the FIRST data
row: a first data row with more fields than the header does not raise — its
leftmost extra fields become the implicit (Multi)Index, the documented
default.  `ParserError` is raised only when a LATER data row exceeds that
established width.  Rows are padded on the right to the width, the index
fields are dropped (the model keeps only the named columns of `self.df`),
NA tokens are substituted and each column's dtype inferred. -/
def read_csv (contents : String) : Except PdError DF :=
  match tokenize contents with
  | [] => .error .emptyData
  | header :: data =>
    let n := header.length
    let w := max n (data.headD []).length
    if data.any (fun r => w < r.length) then .error .parserError
    else
      let padded := data.map (fun r =>
        (r ++ List.replicate (w - r.length) "").drop (w - n))
      let dts := (List.range n).map (fun i => colDtype (padded.map (fun r => r.getD i "")))
      .ok ⟨header, padded.map (fun r => List.zipWith applyDtype dts r)⟩

/-- One step of the backfill loop of `load_data`: append the column with the
empty-string default if it is missing. -/
def addStep (d : DF) (c : String) : DF :=
  if d.cols.contains c then d
  else ⟨d.cols ++ [c], d.rows.map (fun r => r ++ [PValue.s ""])⟩

/-- The backfill loop of `load_data`: for every schema column missing from
the file, append it with the empty-string default. -/
def addMissing (df : DF) : DF :=
  columns.foldl addStep df

/-- `self.df['Registration_No'] = self.df['Registration_No'].astype(str)`. -/
def astypeRegStr (df : DF) : DF :=
  mapCol df "Registration_No" (fun v => .s (pvStr v))

/-- `load_data`.  The file is `none` when `os.path.exists` is false; only
`EmptyDataError` is caught (yielding the empty schema frame), any other
pandas error propagates. -/
def load_data (file : Option String) : Except PdError DF :=
  match file with
  | none => .ok (sortByReg emptyDF)
  | some contents =>
    match read_csv contents with
    | .error .emptyData => .ok (sortByReg emptyDF)
    | .error e => .error e
    | .ok df => .ok (sortByReg (astypeRegStr (addMissing df)))


/-- Result of `add_feedback`: the returned boolean, the new `self.df`, and an
instrumentation flag recording whether `analyze_sentiment` was invoked. -/
structure AddResult where
  ok : Bool
  df : DF
  analyzed : Bool
  deriving DecidableEq, Repr

/-- The `new_entry` dict of `add_feedback`, as a function from column name to
cell (columns outside the dict get NaN, as `pd.concat` aligns by name). -/
def newEntry (reg name course feedback : String) (a : Analysis) (rating : Int)
    (now : String) (c : String) : PValue :=
  if c == "Registration_No" then .s reg
  else if c == "Student_Name" then .s name
  else if c == "Course" then .s course
  else if c == "Feedback" then .s feedback
  else if c == "Sentiment" then .s a.sentiment
  else if c == "Sentiment_Score" then .f a.score
  else if c == "Subjectivity" then .f a.subjectivity
  else if c == "Emotions" then
    .s (if a.emotions.isEmpty then "None" else String.intercalate ", " a.emotions)
  else if c == "Key_Phrases" then
    .s (if a.key_phrases.isEmpty then "None" else String.intercalate " | " a.key_phrases)
  else if c == "Rating" then .i rating
  else if c == "Date" then .s now
  else .nan

/-- `add_feedback(reg_no, name, course, feedback, rating)`.  `datetime.now`
enters as the `now` parameter and TextBlob as `scorer`; `rating` is the raw
string the menu passes, parsed by `int(...)`. -/
def add_feedback (scorer : String → ℚ × ℚ) (now : String) (df : DF)
    (reg name course feedback rating : String) : AddResult :=
  if !df.rows.isEmpty
      && df.rows.any (fun r => cellGet df.cols r "Registration_No" == .s reg) then
    ⟨false, df, false⟩
  else
    match parseIntS rating with
    | none => ⟨false, df, false⟩
    | some rt =>
      if rt < 1 || 10 < rt then ⟨false, df, false⟩
      else
        let a := analyze_sentiment scorer feedback
        let row := df.cols.map (newEntry reg name course feedback a rt now)
        ⟨true, sortByReg ⟨df.cols, df.rows ++ [row]⟩, true⟩

/-- The messages `delete_feedback` prints. -/
inductive DelMsg where
  | emptyStore
  | deletedReg
  | notFoundReg
  | deletedName
  | notFoundName
  | noSelector
  deriving DecidableEq, Repr

/-- Result of `delete_feedback`: printed message, new `self.df`, and whether
`save_data` was called. -/
structure DelResult where
  msg : DelMsg
  df : DF
  saved : Bool
  deriving DecidableEq, Repr

/-- Python truthiness of an optional string argument (`if reg_no:`). -/
def truthy : Option String → Bool
  | none => false
  | some s => !(s == "")

/-- Keep-predicate of the name branch:
`self.df['Student_Name'].str.lower() != str(name).lower()` — the `.str`
accessor yields NaN on non-string cells and `NaN != x` is True, so those
rows are kept. -/
def nameKeep (nm : String) (pv : PValue) : Bool :=
  match pv with
  | .s v => !(pyLower v == pyLower nm)
  | _ => true

/-- `delete_feedback(reg_no=None, name=None)`. -/
def delete_feedback (df : DF) (reg? name? : Option String) : DelResult :=
  if df.rows.isEmpty then ⟨.emptyStore, df, false⟩
  else if truthy reg? then
    let r := reg?.getD ""
    let kept := df.rows.filter
      (fun row => !(cellGet df.cols row "Registration_No" == .s r))
    if kept.length < df.rows.length then ⟨.deletedReg, ⟨df.cols, kept⟩, true⟩
    else ⟨.notFoundReg, ⟨df.cols, kept⟩, false⟩
  else if truthy name? then
    let nm := name?.getD ""
    let kept := df.rows.filter
      (fun row => nameKeep nm (cellGet df.cols row "Student_Name"))
    if kept.length < df.rows.length then ⟨.deletedName, ⟨df.cols, kept⟩, true⟩
    else ⟨.notFoundName, ⟨df.cols, kept⟩, false⟩
  else ⟨.noSelector, df, false⟩

/-- What `search_feedback` prints: the empty-store message, the
missing-selector message, or the matching subset handed to the renderer. -/
inductive SearchOut where
  | emptyStore
  | noSelector
  | results (rows : List (List PValue))
  deriving DecidableEq, Repr

/-- `search_feedback(reg_no=None, name=None)`: same matching rules as delete
but it never reassigns `self.df`, so the state component is returned
untouched. -/
def search_feedback (df : DF) (reg? name? : Option String) : SearchOut × DF :=
  if df.rows.isEmpty then (.emptyStore, df)
  else if truthy reg? then
    let r := reg?.getD ""
    (.results (df.rows.filter
      (fun row => cellGet df.cols row "Registration_No" == .s r)), df)
  else if truthy name? then
    let nm := name?.getD ""
    (.results (df.rows.filter
      (fun row => !nameKeep nm (cellGet df.cols row "Student_Name"))), df)
  else (.noSelector, df)

/-- A rating cell as a rational, when it is numeric. -/
def pvNum : PValue → Option ℚ
  | .i n => some (n : ℚ)
  | .f q => some q
  | _ => none

/-- The five fixed rating buckets of `display_rating_chart`. -/
def ratingCategories : List (String × Int × Int) :=
  [("Excellent (9-10)", 9, 10), ("Very Good (7-8)", 7, 8), ("Good (5-6)", 5, 6),
   ("Fair (3-4)", 3, 4), ("Poor (1-2)", 1, 2)]

/-- `display_rating_chart`.  Before anything is rendered it executes
`self.df['Rating'] = pd.to_numeric(self.df['Rating'], errors='coerce')`, so
the returned state carries that column coercion; the bucket counts (the data
behind the pie chart) are the output, the plotting itself is presentation. -/
def display_rating_chart (df : DF) : List (String × Nat) × DF :=
  if df.rows.isEmpty then ([], df)
  else
    let df' := mapCol df "Rating" to_numeric
    let valid := df'.rows.filter (fun r => (pvNum (cellGet df'.cols r "Rating")).isSome)
    let counts := (ratingCategories.map (fun p =>
      (p.1, (valid.filter (fun r =>
        match pvNum (cellGet df'.cols r "Rating") with
        | some v => (p.2.1 : ℚ) ≤ v && v ≤ (p.2.2 : ℚ)
        | none => false)).length))).filter (fun q => 0 < q.2)
    (counts, df')

/-- `get_sentiment_summary`.  It coerces the `Sentiment_Score` and
`Subjectivity` columns in place with `pd.to_numeric(..., errors='coerce')`,
and finally calls `display_rating_chart` (which coerces `Rating` too).  The
output is the per-label count (`value_counts`); the remaining printed
statistics are presentation over the same state. -/
def get_sentiment_summary (df : DF) : List (String × Nat) × DF :=
  if df.rows.isEmpty then ([], df)
  else
    let d1 := mapCol df "Sentiment_Score" to_numeric
    let d2 := mapCol d1 "Subjectivity" to_numeric
    let counts := ["Positive", "Neutral", "Negative"].map (fun lbl =>
      (lbl, (d2.rows.filter (fun r => cellGet d2.cols r "Sentiment" == .s lbl)).length))
    (counts, (display_rating_chart d2).2)

/-- One menu-level mutating operation for the sort-invariant claim; the
TextBlob scorer and the timestamp travel with the add operation. -/
inductive Op where
  | addOp (scorer : String → ℚ × ℚ) (now reg name course feedback rating : String)
  | delOp (reg? name? : Option String)

def applyOp (df : DF) : Op → DF
  | .addOp scorer now reg name course feedback rating =>
    (add_feedback scorer now df reg name course feedback rating).df
  | .delOp reg? name? => (delete_feedback df reg? name?).df

def applyOps (ops : List Op) (df : DF) : DF := ops.foldl applyOp df

/-- Is a cell non-string (already numeric or missing)? -/
def numericCell : PValue → Bool
  | .s _ => false
  | _ => true

/-- All cells of the three numeric columns are non-string — true of every
collection built by `add_feedback`, where they are int64/float64. -/
def numericOkB (df : DF) : Bool :=
  df.rows.all (fun r =>
    ["Rating", "Sentiment_Score", "Subjectivity"].all
      (fun c => numericCell (cellGet df.cols r c)))

/-- The collection is sorted by registration number in Python string order. -/
def sortedByReg (df : DF) : Prop :=
  df.rows.Pairwise (fun r1 r2 => strLeB (regKey df.cols r1) (regKey df.cols r2) = true)

/-- Literals the pandas tokenizer reads as booleans. -/
def boolLits : List String := ["True", "TRUE", "False", "FALSE"]

/-- Literals the pandas tokenizer reads as infinities. -/
def infLits : List String :=
  ["inf", "Inf", "INF", "Infinity", "-inf", "-Inf", "-INF", "-Infinity",
   "+inf", "+Inf"]

/-- A free-form string field survives the trip through `to_csv`/`read_csv`
unchanged exactly when the tokenizer does not reinterpret it: it is not an
NA token (in particular not empty and not the literal "None"), not an
integer, float, bool or infinity literal. -/
def safeStrB (s : String) : Bool :=
  !(naTokens.contains s) && (parseIntS s).isNone && (parseFloatS s).isNone &&
    !(boolLits.contains s) && !(infLits.contains s)

/-- `q` is a two-decimal rational in [-1, 1] — the shape of every stored
sentiment score and subjectivity (TextBlob's ranges, rounded to 2 decimals). -/
def twoDecB (q : ℚ) : Bool :=
  decide (q.den ∣ 100) && decide (-(q.den : Int) ≤ q.num) &&
    decide (q.num ≤ (q.den : Int))

/-- One record as `add_feedback` constructs it, with typed fields. -/
structure Rec where
  reg : String
  name : String
  course : String
  feedback : String
  sentiment : String
  score : ℚ
  subj : ℚ
  emotions : String
  keyPhrases : String
  rating : Int
  date : String
  deriving DecidableEq, Repr

/-- The dataframe row of a record, in the schema column order. -/
def recRow (r : Rec) : List PValue :=
  [.s r.reg, .s r.name, .s r.course, .s r.feedback, .s r.sentiment,
   .f r.score, .f r.subj, .s r.emotions, .s r.keyPhrases, .i r.rating,
   .s r.date]

/-- Field-level conditions under which a record round-trips: every free-form
string cell is safe, scores are two-decimal values in range, the rating is in
[1, 10] (as validation guarantees). -/
def recOkB (r : Rec) : Bool :=
  safeStrB r.reg && safeStrB r.name && safeStrB r.course &&
    safeStrB r.feedback && safeStrB r.sentiment && twoDecB r.score &&
    twoDecB r.subj && safeStrB r.emotions && safeStrB r.keyPhrases &&
    decide (1 ≤ r.rating) && decide (r.rating ≤ 10) && safeStrB r.date

/-- The canonical dataframe holding the given records. -/
def dfOf (recs : List Rec) : DF := ⟨columns, recs.map recRow⟩

/-- The collection obtained by saving and re-loading (keeping the original
on a load error, which does not occur on saved files). -/
def roundTripped (df : DF) : DF :=
  match load_data (some (save_data df)) with
  | .ok d => d
  | .error _ => df

/-- A legacy file with only two of the schema columns. -/
def fileC1 : String := "Registration_No|Student_Name\nR1|Alice"

/-- The store loaded from a legacy file that lacks the `Rating` column, so
`load_data` backfills `Rating` with the empty string. -/
def df_c1 : DF :=
  match load_data (some fileC1) with
  | .ok d => d
  | .error _ => emptyDF

/-- The raw `read_csv` result of the same legacy file, before backfill. -/
def rc_c1 : DF :=
  match read_csv fileC1 with
  | .ok d => d
  | .error _ => emptyDF

/-- A one-record collection built by `add_feedback` whose feedback text has
no emotion keyword and fewer than 3 words, so `Emotions` and `Key_Phrases`
are stored as the literal "None". -/
def df_c3 : DF :=
  (add_feedback (fun _ => (0, 0)) "2024-01-01 00:00:00" emptyDF
    "R1" "Alice" "Math" "meh" "5").df

/-- The file and operation sequence used to witness the sort invariant. -/
def fileC5 : String := "Registration_No|Student_Name\n2|Xavier\n10|Yann"

def df_c5 : DF :=
  match load_data (some fileC5) with
  | .ok d => d
  | .error _ => emptyDF

def opsC5 : List Op :=
  [.addOp (fun _ => (0, 0)) "2024-01-01 00:00:00" "15" "Zoe" "Math"
     "the course was great overall" "7",
   .delOp (some "2") none]

/-- The raw serialized cells of one record, as `to_csv` writes them. -/
def serRec (r : Rec) : List String := (recRow r).map serializeCell

/-- A concrete two-record collection whose fields satisfy the round-trip
safety conditions (safe strings, two-decimal scores, ratings in range). -/
def recsC3w : List Rec :=
  [⟨"RA1", "Alice", "Math", "the course was great overall", "Positive",
    mkRat 1 2, mkRat 3 4, "positive", "the course was great overall", 7,
    "2024-01-01 00:00:00"⟩,
   ⟨"RB2", "Bob", "Physics", "the lectures were boring sadly", "Negative",
    mkRat (-1) 4, mkRat 1 2, "negative", "the lectures were boring sadly", 3,
    "2024-01-02 00:00:00"⟩]

/-! ### Lemmas about the analyzer -/

theorem foldl_phrases (L : List (List Char)) :
    ∀ acc : List String,
      L.foldl (fun acc cs =>
        if 3 ≤ (splitWsAux (pyStrip cs) []).length
        then acc ++ [String.mk (pyStrip cs)] else acc) acc
      = acc ++ (((L.map pyStrip).filter
          (fun cs => 3 ≤ (splitWsAux cs []).length)).map String.mk) := by
  induction L with
  | nil => simp
  | cons c t ih =>
    intro acc
    simp only [List.foldl_cons, List.map_cons, List.filter_cons]
    by_cases h : 3 ≤ (splitWsAux (pyStrip c) []).length
    · simp [h, ih]
    · simp [h, ih]

/-- Claim C9: for every feedback text, `extract_key_phrases` returns exactly
the first at most 3 period-separated, whitespace-trimmed segments having at
least 3 whitespace-delimited words, in original order; in particular the
spec's example text yields exactly its two long clauses. -/
theorem c9_key_phrases :
    (∀ text : String, extract_key_phrases text = keyPhrasesSpec text) ∧
    extract_key_phrases "This course was great. I learned a lot. Thanks. Bye." =
      ["This course was great", "I learned a lot"] := by
  constructor
  · intro text
    unfold extract_key_phrases keyPhrasesSpec
    rw [foldl_phrases]
    simp
  · decide

/-- The label branch of `analyze_sentiment`, with the thresholds written as
the fractions 1/10 and -(1/10). -/
theorem analyze_sentiment_label (scorer : String → ℚ × ℚ) (text : String) :
    (analyze_sentiment scorer text).sentiment =
      if 1 / 10 < (scorer text).1 then "Positive"
      else if (scorer text).1 < -(1 / 10) then "Negative"
      else "Neutral" := by
  have h10 : (mkRat 1 10 : ℚ) = 1 / 10 := by norm_num [Rat.mkRat_eq_div]
  have hm10 : (mkRat (-1) 10 : ℚ) = -(1 / 10) := by norm_num [Rat.mkRat_eq_div]
  simp only [analyze_sentiment, gt_iff_lt, h10, hm10]

/-- Claim C7: the analyzer labels a text Positive iff the scorer's polarity
exceeds 0.1, Negative iff it is below -0.1, Neutral otherwise; the stored
score and subjectivity are the scorer's values rounded to 2 decimals; and
the spec's three example polarities (0.05, 0.5, -0.3) get the expected
labels. -/
theorem c7_sentiment_thresholds :
    (∀ (scorer : String → ℚ × ℚ) (text : String),
      ((analyze_sentiment scorer text).sentiment = "Positive" ↔
        1 / 10 < (scorer text).1) ∧
      ((analyze_sentiment scorer text).sentiment = "Negative" ↔
        (scorer text).1 < -(1 / 10)) ∧
      ((analyze_sentiment scorer text).sentiment = "Neutral" ↔
        (-(1 / 10) ≤ (scorer text).1 ∧ (scorer text).1 ≤ 1 / 10)) ∧
      (analyze_sentiment scorer text).score = round2 (scorer text).1 ∧
      (analyze_sentiment scorer text).subjectivity = round2 (scorer text).2) ∧
    (analyze_sentiment (fun _ => (1 / 20, 0)) "t").sentiment = "Neutral" ∧
    (analyze_sentiment (fun _ => (1 / 2, 0)) "t").sentiment = "Positive" ∧
    (analyze_sentiment (fun _ => (-(3 / 10), 0)) "t").sentiment = "Negative" := by
  refine ⟨fun scorer text => ?_, ?_, ?_, ?_⟩
  · rw [show (analyze_sentiment scorer text).score = round2 (scorer text).1 from rfl,
      show (analyze_sentiment scorer text).subjectivity = round2 (scorer text).2 from rfl,
      analyze_sentiment_label]
    by_cases h1 : 1 / 10 < (scorer text).1
    · rw [if_pos h1]
      exact ⟨iff_of_true rfl h1, iff_of_false (by decide) (by intro h; linarith),
        iff_of_false (by decide) (fun h => absurd h1 (not_lt.mpr h.2)), rfl, rfl⟩
    · rw [if_neg h1]
      by_cases h2 : (scorer text).1 < -(1 / 10)
      · rw [if_pos h2]
        exact ⟨iff_of_false (by decide) h1, iff_of_true rfl h2,
          iff_of_false (by decide) (fun h => absurd h2 (not_lt.mpr h.1)), rfl, rfl⟩
      · rw [if_neg h2]
        exact ⟨iff_of_false (by decide) h1, iff_of_false (by decide) h2,
          iff_of_true rfl ⟨not_lt.mp h2, not_lt.mp h1⟩, rfl, rfl⟩
  · rw [analyze_sentiment_label]
    norm_num
  · rw [analyze_sentiment_label]
    norm_num
  · rw [analyze_sentiment_label]
    norm_num

theorem dedupSeen_mem : ∀ (l seen : List String) (x : String),
    x ∈ dedupSeen l seen ↔ x ∈ l ∧ x ∉ seen := by
  intro l
  induction l with
  | nil => intro seen x; simp [dedupSeen]
  | cons y t ih =>
    intro seen x
    unfold dedupSeen
    by_cases h : seen.contains y
    · rw [if_pos h]
      have hy : y ∈ seen := by simpa using h
      rw [ih]
      constructor
      · exact fun ⟨hx, hs⟩ => ⟨List.mem_cons_of_mem _ hx, hs⟩
      · rintro ⟨hmem, hs⟩
        rcases List.mem_cons.mp hmem with rfl | hx
        · exact absurd hy hs
        · exact ⟨hx, hs⟩
    · rw [if_neg h]
      have hy : y ∉ seen := by simpa using h
      constructor
      · intro hmem
        rcases List.mem_cons.mp hmem with rfl | hmem2
        · exact ⟨List.mem_cons_self _ _, hy⟩
        · obtain ⟨hx, hs⟩ := (ih _ _).mp hmem2
          simp only [List.mem_cons, not_or] at hs
          exact ⟨List.mem_cons_of_mem _ hx, hs.2⟩
      · rintro ⟨hmem, hs⟩
        rcases List.mem_cons.mp hmem with rfl | hx
        · exact List.mem_cons_self _ _
        · by_cases hxy : x = y
          · exact hxy ▸ List.mem_cons_self _ _
          · refine List.mem_cons_of_mem _ ((ih _ _).mpr ⟨hx, ?_⟩)
            simp only [List.mem_cons, not_or]
            exact ⟨hxy, hs⟩

theorem dedupSeen_nodup : ∀ (l seen : List String), (dedupSeen l seen).Nodup := by
  intro l
  induction l with
  | nil => intro seen; simp [dedupSeen]
  | cons y t ih =>
    intro seen
    unfold dedupSeen
    by_cases h : seen.contains y
    · rw [if_pos h]
      exact ih seen
    · rw [if_neg h]
      refine List.nodup_cons.mpr ⟨fun hmem => ?_, ih _⟩
      exact ((dedupSeen_mem t (y :: seen) y).mp hmem).2 (List.mem_cons_self y seen)

theorem foldl_kw_mem (tl : List Char) (e : String) : ∀ (kws : List String)
    (a : List String) (x : String),
    (x ∈ kws.foldl (fun a kw => if containsSub kw.data tl then a ++ [e] else a) a ↔
      x ∈ a ∨ (x = e ∧ ∃ kw ∈ kws, containsSub kw.data tl = true)) := by
  intro kws
  induction kws with
  | nil => intro a x; simp
  | cons k t ih =>
    intro a x
    simp only [List.foldl_cons]
    by_cases h : containsSub k.data tl
    · rw [if_pos h, ih]
      simp only [List.mem_append, List.mem_cons, List.not_mem_nil, or_false,
        List.mem_singleton]
      constructor
      · rintro ((hx | rfl) | ⟨rfl, kw, hkw, hc⟩)
        · exact Or.inl hx
        · exact Or.inr ⟨rfl, k, Or.inl rfl, h⟩
        · exact Or.inr ⟨rfl, kw, Or.inr hkw, hc⟩
      · rintro (hx | ⟨rfl, kw, (rfl | hkw), hc⟩)
        · exact Or.inl (Or.inl hx)
        · exact Or.inl (Or.inr rfl)
        · exact Or.inr ⟨rfl, kw, hkw, hc⟩
    · rw [if_neg h, ih]
      simp only [List.mem_cons]
      constructor
      · rintro (hx | ⟨rfl, kw, hkw, hc⟩)
        · exact Or.inl hx
        · exact Or.inr ⟨rfl, kw, Or.inr hkw, hc⟩
      · rintro (hx | ⟨rfl, kw, (rfl | hkw), hc⟩)
        · exact Or.inl hx
        · exact absurd hc (by simpa using h)
        · exact Or.inr ⟨rfl, kw, hkw, hc⟩

theorem foldl_cats_mem (tl : List Char) : ∀ (L : List (String × List String))
    (acc : List String) (x : String),
    (x ∈ L.foldl (fun acc p =>
        p.2.foldl (fun a kw => if containsSub kw.data tl then a ++ [p.1] else a) acc) acc ↔
      x ∈ acc ∨ ∃ p ∈ L, x = p.1 ∧ ∃ kw ∈ p.2, containsSub kw.data tl = true) := by
  intro L
  induction L with
  | nil => intro acc x; simp
  | cons p t ih =>
    intro acc x
    simp only [List.foldl_cons]
    rw [ih, foldl_kw_mem]
    simp only [List.mem_cons]
    constructor
    · rintro ((hx | ⟨rfl, kw, hkw, hc⟩) | ⟨q, hq, rfl, kw, hkw, hc⟩)
      · exact Or.inl hx
      · exact Or.inr ⟨p, Or.inl rfl, rfl, kw, hkw, hc⟩
      · exact Or.inr ⟨q, Or.inr hq, rfl, kw, hkw, hc⟩
    · rintro (hx | ⟨q, (rfl | hq), rfl, kw, hkw, hc⟩)
      · exact Or.inl (Or.inl hx)
      · exact Or.inl (Or.inr ⟨rfl, kw, hkw, hc⟩)
      · exact Or.inr ⟨q, hq, rfl, kw, hkw, hc⟩

theorem extract_emotions_mem (text : String) (x : String) :
    x ∈ extract_emotions text ↔
      ∃ p ∈ emotion_keywords, x = p.1 ∧
        ∃ kw ∈ p.2, containsSub kw.data (pyLower text).data = true := by
  unfold extract_emotions
  rw [dedupSeen_mem, foldl_cats_mem]
  simp

/-- Claim C8: a category is in the emotion tag set iff one of its keywords
occurs as a substring of the lowercased text; the result is deduplicated; and
the spec's example text yields exactly the positive and negative tags. -/
theorem c8_emotion_tagging :
    (∀ (text cat : String) (kws : List String), (cat, kws) ∈ emotion_keywords →
      (cat ∈ extract_emotions text ↔
        ∃ kw ∈ kws, containsSub kw.data (pyLower text).data = true)) ∧
    (∀ text : String, (extract_emotions text).Nodup) ∧
    extract_emotions "The lectures were boring but the assignments were great" =
      ["positive", "negative"] := by
  refine ⟨fun text cat kws hmem => ?_, fun text => dedupSeen_nodup _ _, by decide⟩
  rw [extract_emotions_mem]
  constructor
  · rintro ⟨p, hp, rfl, kw, hkw, hc⟩
    simp only [emotion_keywords, List.mem_cons, List.not_mem_nil, or_false] at hp hmem
    rcases hp with rfl | rfl | rfl <;>
      rcases hmem with h | h | h <;>
        simp only [Prod.mk.injEq] at h <;> first
          | (exact ⟨kw, h.2 ▸ hkw, hc⟩)
          | (exact absurd h.1 (by decide))
  · rintro ⟨kw, hkw, hc⟩
    exact ⟨(cat, kws), hmem, rfl, kw, hkw, hc⟩

/-! ### Add: uniqueness and rating validation -/

/-- Claim C4: if the registration number is already present (as a string) in
the collection, a second `add_feedback` — whatever the other fields are —
returns failure, leaves the collection unchanged (so also its size), and
never reaches the analyzer. -/
theorem c4_unique_registration (scorer : String → ℚ × ℚ)
    (now : String) (df : DF) (reg name course feedback rating : String)
    (h : df.rows.any (fun r => cellGet df.cols r "Registration_No" == .s reg) = true) :
    add_feedback scorer now df reg name course feedback rating =
      ⟨false, df, false⟩ := by
  have hne : df.rows.isEmpty = false := by
    cases hr : df.rows with
    | nil => rw [hr] at h; simp at h
    | cons a t => simp [List.isEmpty]
  unfold add_feedback
  rw [hne, h]
  simp

theorem c4_unique_registration_witness :
    ((⟨columns, [[PValue.s "R1", PValue.s "Bob", PValue.s "Math", PValue.s "ok",
        PValue.s "Neutral", PValue.f 0, PValue.f 0, PValue.s "None",
        PValue.s "None", PValue.i 5, PValue.s "d"]]⟩ : DF).rows.any
      (fun r => cellGet columns r "Registration_No" == .s "R1") = true) ∧
    add_feedback (fun _ => (0, 0)) "d2"
      ⟨columns, [[PValue.s "R1", PValue.s "Bob", PValue.s "Math", PValue.s "ok",
        PValue.s "Neutral", PValue.f 0, PValue.f 0, PValue.s "None",
        PValue.s "None", PValue.i 5, PValue.s "d"]]⟩
      "R1" "Alice" "Sci" "great stuff here" "7" =
      ⟨false, ⟨columns, [[PValue.s "R1", PValue.s "Bob", PValue.s "Math",
        PValue.s "ok", PValue.s "Neutral", PValue.f 0, PValue.f 0,
        PValue.s "None", PValue.s "None", PValue.i 5, PValue.s "d"]]⟩,
        false⟩ :=
  ⟨by decide, c4_unique_registration _ _ _ _ _ _ _ _ (by decide)⟩

/-- Claim C6: rating strings parsing to 1 and 10 are accepted (when the
registration number is fresh); a rating that does not parse as an integer or
parses outside [1,10] — in particular "0", "11" and non-numeric strings — is
rejected with failure, the collection is left unchanged and the analyzer is
never invoked. -/
theorem c6_rating_validation (scorer : String → ℚ × ℚ)
    (now : String) (df : DF) (reg name course feedback : String) :
    (df.rows.any (fun r => cellGet df.cols r "Registration_No" == .s reg) = false →
      ((add_feedback scorer now df reg name course feedback "1").ok = true ∧
       (add_feedback scorer now df reg name course feedback "10").ok = true)) ∧
    (∀ rating : String, (∀ v, parseIntS rating = some v → v < 1 ∨ 10 < v) →
      add_feedback scorer now df reg name course feedback rating =
        ⟨false, df, false⟩) := by
  constructor
  · intro h
    have hguard : (!df.rows.isEmpty &&
        df.rows.any (fun r => cellGet df.cols r "Registration_No" == .s reg)) = false := by
      rw [h, Bool.and_false]
    constructor
    · unfold add_feedback
      rw [hguard]
      simp only [Bool.false_eq_true, if_false]
      rw [show parseIntS "1" = some 1 from by decide]
      simp
    · unfold add_feedback
      rw [hguard]
      simp only [Bool.false_eq_true, if_false]
      rw [show parseIntS "10" = some 10 from by decide]
      simp
  · intro rating hbad
    by_cases hguard : (!df.rows.isEmpty &&
        df.rows.any (fun r => cellGet df.cols r "Registration_No" == .s reg)) = true
    · unfold add_feedback
      rw [hguard]
      simp
    · unfold add_feedback
      rw [Bool.not_eq_true] at hguard
      rw [hguard]
      simp only [Bool.false_eq_true, if_false]
      cases hp : parseIntS rating with
      | none => simp
      | some v =>
        have := hbad v hp
        have hcond : (v < 1 || 10 < v) = true := by
          rcases this with h1 | h1 <;> simp [h1]
        simp [hcond]

theorem c6_rating_validation_witness :
    ((emptyDF.rows.any
        (fun r => cellGet emptyDF.cols r "Registration_No" == .s "R1") = false) ∧
      ((add_feedback (fun _ => (0, 0)) "d" emptyDF "R1" "A" "C" "fb" "1").ok = true ∧
       (add_feedback (fun _ => (0, 0)) "d" emptyDF "R1" "A" "C" "fb" "10").ok = true)) ∧
    ((∀ v, parseIntS "0" = some v → v < 1 ∨ 10 < v) ∧
      add_feedback (fun _ => (0, 0)) "d" emptyDF "R1" "A" "C" "fb" "0" =
        ⟨false, emptyDF, false⟩) ∧
    ((∀ v, parseIntS "11" = some v → v < 1 ∨ 10 < v) ∧
      add_feedback (fun _ => (0, 0)) "d" emptyDF "R1" "A" "C" "fb" "11" =
        ⟨false, emptyDF, false⟩) ∧
    ((∀ v, parseIntS "abc" = some v → v < 1 ∨ 10 < v) ∧
      add_feedback (fun _ => (0, 0)) "d" emptyDF "R1" "A" "C" "fb" "abc" =
        ⟨false, emptyDF, false⟩) := by
  have h0 : parseIntS "0" = some 0 := by decide
  have h11 : parseIntS "11" = some 11 := by decide
  have habc : parseIntS "abc" = none := by decide
  have hb0 : ∀ v : Int, parseIntS "0" = some v → v < 1 ∨ 10 < v := by
    intro v hv
    rw [h0] at hv
    cases hv
    exact Or.inl (by omega)
  have hb11 : ∀ v : Int, parseIntS "11" = some v → v < 1 ∨ 10 < v := by
    intro v hv
    rw [h11] at hv
    cases hv
    exact Or.inr (by omega)
  have hbabc : ∀ v : Int, parseIntS "abc" = some v → v < 1 ∨ 10 < v := by
    intro v hv
    rw [habc] at hv
    exact Option.noConfusion hv
  exact ⟨⟨by decide, (c6_rating_validation _ _ _ _ _ _ _).1 (by decide)⟩,
    ⟨hb0, (c6_rating_validation _ _ _ _ _ _ _).2 "0" hb0⟩,
    ⟨hb11, (c6_rating_validation _ _ _ _ _ _ _).2 "11" hb11⟩,
    ⟨hbabc, (c6_rating_validation _ _ _ _ _ _ _).2 "abc" hbabc⟩⟩

/-! ### Delete contract -/

theorem filter_not_length_lt {α : Type} (p : α → Bool) (l : List α)
    (h : l.any p = true) : (l.filter (fun x => !p x)).length < l.length := by
  induction l with
  | nil => simp at h
  | cons a t ih =>
    simp only [List.any_cons, Bool.or_eq_true] at h
    by_cases hp : p a
    · simp only [List.filter_cons, hp, Bool.not_true, Bool.false_eq_true,
        if_false, List.length_cons]
      exact Nat.lt_succ_of_le (List.length_filter_le _ _)
    · rcases h with h | h
      · exact absurd h hp
      · have hp' : p a = false := by simpa using hp
        simp only [List.filter_cons, hp', Bool.not_false, if_true, List.length_cons]
        exact Nat.succ_lt_succ (ih h)

theorem filter_not_eq_self {α : Type} (p : α → Bool) (l : List α)
    (h : l.any p = false) : l.filter (fun x => !p x) = l := by
  rw [List.filter_eq_self]
  intro a ha
  have := (List.any_eq_false.mp h) a ha
  simp [this]

/-- Claim C10 (amended to non-empty stores): on a non-empty store, delete
with no (truthy) selector reports the missing-selector error and does not
mutate; with a registration selector it removes exactly the rows whose
registration number equals it (string equality) and persists, or reports not
found and leaves the store unchanged without persisting; the name selector
behaves the same with case-insensitive equality.  (On an empty store the
empty-store message is printed instead — see the counterexample.) -/
theorem c10_delete_contract (df : DF) (reg? name? : Option String)
    (hne : df.rows ≠ []) :
    (truthy reg? = false → truthy name? = false →
      delete_feedback df reg? name? = ⟨.noSelector, df, false⟩) ∧
    (∀ r, reg? = some r → truthy reg? = true →
      ((df.rows.any (fun row => cellGet df.cols row "Registration_No" == .s r) = true →
        delete_feedback df reg? name? =
          ⟨.deletedReg, ⟨df.cols, df.rows.filter
            (fun row => !(cellGet df.cols row "Registration_No" == .s r))⟩, true⟩ ∧
        ∀ row ∈ (delete_feedback df reg? name?).df.rows,
          ¬(cellGet df.cols row "Registration_No" = .s r)) ∧
       (df.rows.any (fun row => cellGet df.cols row "Registration_No" == .s r) = false →
        delete_feedback df reg? name? = ⟨.notFoundReg, df, false⟩))) ∧
    (∀ nm, name? = some nm → truthy reg? = false → truthy name? = true →
      ((df.rows.any (fun row => !nameKeep nm (cellGet df.cols row "Student_Name")) = true →
        delete_feedback df reg? name? =
          ⟨.deletedName, ⟨df.cols, df.rows.filter
            (fun row => nameKeep nm (cellGet df.cols row "Student_Name"))⟩, true⟩ ∧
        ∀ row ∈ (delete_feedback df reg? name?).df.rows,
          nameKeep nm (cellGet df.cols row "Student_Name") = true) ∧
       (df.rows.any (fun row => !nameKeep nm (cellGet df.cols row "Student_Name")) = false →
        delete_feedback df reg? name? = ⟨.notFoundName, df, false⟩))) := by
  have hE : df.rows.isEmpty = false := by
    cases h : df.rows with
    | nil => exact absurd h hne
    | cons a t => rfl
  refine ⟨?_, ?_, ?_⟩
  · intro htr htn
    unfold delete_feedback
    rw [hE, htr, htn]
    simp
  · rintro r rfl htr
    constructor
    · intro hmatch
      have hlt := filter_not_length_lt
        (fun row => cellGet df.cols row "Registration_No" == .s r) df.rows hmatch
      have heq : delete_feedback df (some r) name? =
          ⟨.deletedReg, ⟨df.cols, df.rows.filter
            (fun row => !(cellGet df.cols row "Registration_No" == .s r))⟩, true⟩ := by
        unfold delete_feedback
        rw [hE, htr]
        simp only [Bool.false_eq_true, if_false, if_true, Option.getD_some]
        rw [if_pos hlt]
      refine ⟨heq, ?_⟩
      rw [heq]
      intro row hrow
      have := (List.mem_filter.mp hrow).2
      simpa using this
    · intro hmatch
      have hkeep := filter_not_eq_self
        (fun row => cellGet df.cols row "Registration_No" == .s r) df.rows hmatch
      unfold delete_feedback
      rw [hE, htr]
      simp only [Bool.false_eq_true, if_false, if_true, Option.getD_some]
      rw [hkeep, if_neg (lt_irrefl _)]
  · rintro nm rfl htr htn
    constructor
    · intro hmatch
      have hlt := filter_not_length_lt
        (fun row => !nameKeep nm (cellGet df.cols row "Student_Name")) df.rows hmatch
      simp only [Bool.not_not] at hlt
      have heq : delete_feedback df reg? (some nm) =
          ⟨.deletedName, ⟨df.cols, df.rows.filter
            (fun row => nameKeep nm (cellGet df.cols row "Student_Name"))⟩, true⟩ := by
        unfold delete_feedback
        rw [hE, htr, htn]
        simp only [Bool.false_eq_true, if_false, if_true, Option.getD_some]
        rw [if_pos hlt]
      refine ⟨heq, ?_⟩
      rw [heq]
      intro row hrow
      exact (List.mem_filter.mp hrow).2
    · intro hmatch
      have hkeep := filter_not_eq_self
        (fun row => !nameKeep nm (cellGet df.cols row "Student_Name")) df.rows hmatch
      simp only [Bool.not_not] at hkeep
      unfold delete_feedback
      rw [hE, htr, htn]
      simp only [Bool.false_eq_true, if_false, if_true, Option.getD_some]
      rw [hkeep, if_neg (lt_irrefl _)]

/-- Claim C10, the part that fails: on the EMPTY store, delete with no
selector prints the empty-store message, not the missing-selector guidance
the claim promises for every store state. -/
theorem c10_counterexample :
    delete_feedback emptyDF none none = ⟨.emptyStore, emptyDF, false⟩ ∧
    DelMsg.emptyStore ≠ DelMsg.noSelector := by
  exact ⟨rfl, by decide⟩

theorem c10_delete_contract_witness :
    (df_c3.rows ≠ [] ∧ truthy (some "R1") = true ∧
      df_c3.rows.any
        (fun row => cellGet df_c3.cols row "Registration_No" == .s "R1") = true) ∧
    delete_feedback df_c3 (some "R1") none =
      ⟨.deletedReg, ⟨df_c3.cols, df_c3.rows.filter
        (fun row => !(cellGet df_c3.cols row "Registration_No" == .s "R1"))⟩,
       true⟩ :=
  ⟨⟨by decide, by decide, by decide⟩,
   (((c10_delete_contract df_c3 (some "R1") none (by decide)).2.1 "R1" rfl
      (by decide)).1 (by decide)).1⟩

/-! ### Read-only-ness of search and the aggregation coercions -/

theorem setAt_getD : ∀ (row : List PValue) (i : Nat) (f : PValue → PValue),
    f (row.getD i PValue.nan) = row.getD i PValue.nan → setAt row i f = row := by
  intro row
  induction row with
  | nil => intro i f _; rfl
  | cons v t ih =>
    intro i f h
    cases i with
    | zero => simpa [setAt] using h
    | succ n =>
      simp only [setAt, List.cons.injEq, true_and]
      exact ih n f (by simpa using h)

theorem map_eq_self_of {α : Type} (l : List α) (f : α → α)
    (h : ∀ a ∈ l, f a = a) : l.map f = l := by
  induction l with
  | nil => rfl
  | cons a t ih =>
    simp only [List.map_cons, h a (List.mem_cons_self a t), List.cons.injEq, true_and]
    exact ih (fun x hx => h x (List.mem_cons_of_mem _ hx))

theorem mapCol_eq_self (df : DF) (name : String) (f : PValue → PValue)
    (h : ∀ row ∈ df.rows, f (cellGet df.cols row name) = cellGet df.cols row name) :
    mapCol df name f = df := by
  unfold mapCol
  cases hidx : colIdx? name df.cols with
  | none => rfl
  | some i =>
    show (⟨df.cols, df.rows.map (fun r => setAt r i f)⟩ : DF) = df
    have hall : ∀ row ∈ df.rows, setAt row i f = row := by
      intro row hrow
      refine setAt_getD row i f ?_
      have hh := h row hrow
      unfold cellGet at hh
      rw [hidx] at hh
      exact hh
    rw [map_eq_self_of _ _ hall]

theorem to_numeric_fix (v : PValue) (h : numericCell v = true) :
    to_numeric v = v := by
  cases v with
  | s w => simp [numericCell] at h
  | i n => rfl
  | f q => rfl
  | nan => rfl

theorem numericOk_coerce_id (df : DF) (h : numericOkB df = true)
    (name : String) (hname : name ∈ ["Rating", "Sentiment_Score", "Subjectivity"]) :
    mapCol df name to_numeric = df := by
  refine mapCol_eq_self df name to_numeric (fun row hrow => ?_)
  refine to_numeric_fix _ ?_
  have h1 := (List.all_eq_true.mp (by exact h)) row hrow
  have h2 := (List.all_eq_true.mp h1) name hname
  exact h2

/-- Claim C1 (amended): search never touches the collection, for every store
state; the rating chart and the sentiment summary do reassign the Rating /
Sentiment_Score / Subjectivity columns through `pd.to_numeric(...,
errors='coerce')`, but on any state whose cells in those columns are already
numeric or missing — every collection `add_feedback` builds — the coercion
is the identity and the collection is unchanged.  (On other states they do
mutate — see the counterexample.) -/
theorem c1_read_only (df : DF) (h : numericOkB df = true) :
    (∀ (d : DF) (r? n? : Option String), (search_feedback d r? n?).2 = d) ∧
    (display_rating_chart df).2 = df ∧
    (get_sentiment_summary df).2 = df := by
  have hsearch : ∀ (d : DF) (r? n? : Option String), (search_feedback d r? n?).2 = d := by
    intro d r? n?
    unfold search_feedback
    split
    · rfl
    · split
      · rfl
      · split
        · rfl
        · rfl
  have hchart : ∀ d : DF, numericOkB d = true → (display_rating_chart d).2 = d := by
    intro d hd
    unfold display_rating_chart
    split
    · rfl
    · simp only
      exact numericOk_coerce_id d hd "Rating" (by decide)
  refine ⟨hsearch, hchart df h, ?_⟩
  unfold get_sentiment_summary
  split
  · rfl
  · simp only
    rw [numericOk_coerce_id df h "Sentiment_Score" (by decide),
      numericOk_coerce_id df h "Subjectivity" (by decide)]
    exact hchart df h

theorem c1_read_only_witness :
    numericOkB df_c3 = true ∧
    (search_feedback df_c3 (some "R1") none).2 = df_c3 ∧
    (display_rating_chart df_c3).2 = df_c3 ∧
    (get_sentiment_summary df_c3).2 = df_c3 :=
  ⟨by decide, (c1_read_only df_c3 (by decide)).1 df_c3 (some "R1") none,
   (c1_read_only df_c3 (by decide)).2.1,
   (c1_read_only df_c3 (by decide)).2.2⟩

/-- Claim C1, the part that fails: on a store loaded from a file without a
`Rating` column (so Rating was backfilled with the empty string), merely
displaying the rating chart rewrites the `Rating` field of the record from
the empty string to NaN — the aggregation operations are not read-only. -/
theorem c1_counterexample :
    cellGet df_c1.cols (df_c1.rows.getD 0 []) "Rating" = PValue.s "" ∧
    cellGet (display_rating_chart df_c1).2.cols
      (((display_rating_chart df_c1).2.rows).getD 0 []) "Rating" = PValue.nan ∧
    PValue.s "" ≠ PValue.nan := by
  refine ⟨by decide, by decide, by decide⟩

/-! ### The sort invariant -/

theorem lexLe_total : ∀ a b : List Char, lexLe a b = true ∨ lexLe b a = true := by
  intro a
  induction a with
  | nil => intro b; exact Or.inl rfl
  | cons c as ih =>
    intro b
    cases b with
    | nil => exact Or.inr rfl
    | cons d bs =>
      by_cases h : c = d
      · subst h
        simp only [lexLe, if_pos rfl]
        exact ih bs
      · rcases lt_or_gt_of_ne h with hlt | hgt
        · exact Or.inl (by simp [lexLe, h, hlt])
        · exact Or.inr (by simp [lexLe, Ne.symm h, hgt])

theorem lexLe_trans : ∀ a b c : List Char,
    lexLe a b = true → lexLe b c = true → lexLe a c = true := by
  intro a
  induction a with
  | nil => intro b c _ _; rfl
  | cons x as ih =>
    intro b c hab hbc
    cases b with
    | nil => simp [lexLe] at hab
    | cons y bs =>
      cases c with
      | nil => simp [lexLe] at hbc
      | cons z cs =>
        by_cases hxy : x = y
        · subst hxy
          by_cases hyz : x = z
          · subst hyz
            simp only [lexLe, if_pos rfl] at hab hbc ⊢
            exact ih bs cs hab hbc
          · simp only [lexLe, hyz, if_false] at hbc ⊢
            exact hbc
        · by_cases hyz : y = z
          · subst hyz
            simp only [lexLe, hxy, if_false] at hab ⊢
            exact hab
          · have hxltY : x < y := of_decide_eq_true (by simpa [lexLe, hxy] using hab)
            have hyltZ : y < z := of_decide_eq_true (by simpa [lexLe, hyz] using hbc)
            have hxz : x < z := lt_trans hxltY hyltZ
            simp [lexLe, ne_of_lt hxz, hxz]

theorem sortedByReg_sortByReg (df : DF) : sortedByReg (sortByReg df) := by
  show List.Pairwise
      (fun r1 r2 => strLeB (regKey df.cols r1) (regKey df.cols r2) = true)
      (df.rows.insertionSort
        (fun r1 r2 => strLeB (regKey df.cols r1) (regKey df.cols r2) = true))
  letI : IsTrans (List PValue)
      (fun r1 r2 => strLeB (regKey df.cols r1) (regKey df.cols r2) = true) :=
    ⟨fun a b c hab hbc => lexLe_trans _ _ _ hab hbc⟩
  letI : IsTotal (List PValue)
      (fun r1 r2 => strLeB (regKey df.cols r1) (regKey df.cols r2) = true) :=
    ⟨fun a b => lexLe_total _ _⟩
  exact List.sorted_insertionSort _ df.rows

theorem sortedByReg_filter (df : DF) (p : List PValue → Bool)
    (h : sortedByReg df) : sortedByReg ⟨df.cols, df.rows.filter p⟩ :=
  List.Pairwise.filter p h

theorem add_preserves_sorted (scorer : String → ℚ × ℚ) (now : String) (df : DF)
    (reg name course feedback rating : String) (h : sortedByReg df) :
    sortedByReg (add_feedback scorer now df reg name course feedback rating).df := by
  unfold add_feedback
  split
  · exact h
  · split
    · exact h
    · split
      · exact h
      · exact sortedByReg_sortByReg _

theorem delete_preserves_sorted (df : DF) (reg? name? : Option String)
    (h : sortedByReg df) : sortedByReg (delete_feedback df reg? name?).df := by
  unfold delete_feedback
  split
  · exact h
  · dsimp only
    split
    · split
      · exact sortedByReg_filter df _ h
      · exact sortedByReg_filter df _ h
    · split
      · split
        · exact sortedByReg_filter df _ h
        · exact sortedByReg_filter df _ h
      · exact h

theorem applyOps_preserves_sorted : ∀ (ops : List Op) (df : DF),
    sortedByReg df → sortedByReg (applyOps ops df) := by
  intro ops
  induction ops with
  | nil => intro df h; exact h
  | cons op t ih =>
    intro df h
    cases op with
    | addOp scorer now reg name course feedback rating =>
      exact ih _ (add_preserves_sorted scorer now df reg name course feedback rating h)
    | delOp reg? name? =>
      exact ih _ (delete_preserves_sorted df reg? name? h)

theorem load_data_sorted (file : Option String) (df : DF)
    (h : load_data file = .ok df) : sortedByReg df := by
  cases file with
  | none =>
    simp only [load_data, Except.ok.injEq] at h
    rw [← h]
    exact sortedByReg_sortByReg _
  | some contents =>
    cases hr : read_csv contents with
    | error e =>
      cases e with
      | emptyData =>
        simp only [load_data, hr, Except.ok.injEq] at h
        rw [← h]
        exact sortedByReg_sortByReg _
      | parserError => simp [load_data, hr] at h
    | ok d0 =>
      simp only [load_data, hr, Except.ok.injEq] at h
      rw [← h]
      exact sortedByReg_sortByReg _

/-- Claim C5: starting from any successfully loaded store, after every
sequence of add and delete operations the collection is sorted by
registration number — in Python string (code point) order, under which
"10" sorts before "2". -/
theorem c5_sort_invariant (file : Option String) (df : DF) (ops : List Op)
    (h : load_data file = .ok df) :
    sortedByReg (applyOps ops df) ∧
    strLeB "10" "2" = true ∧ strLeB "2" "10" = false :=
  ⟨applyOps_preserves_sorted ops df (load_data_sorted file df h),
   by decide, by decide⟩

theorem c5_sort_invariant_witness :
    load_data (some fileC5) = .ok df_c5 ∧
    (sortedByReg (applyOps opsC5 df_c5) ∧
      strLeB "10" "2" = true ∧ strLeB "2" "10" = false) :=
  ⟨by decide, c5_sort_invariant (some fileC5) df_c5 opsC5 (by decide)⟩

/-! ### Load robustness and backfill -/

theorem setAt_length : ∀ (row : List PValue) (i : Nat) (f : PValue → PValue),
    (setAt row i f).length = row.length := by
  intro row
  induction row with
  | nil => intro i f; rfl
  | cons v t ih =>
    intro i f
    cases i with
    | zero => rfl
    | succ n => simp [setAt, ih]

theorem setAt_getD_ne : ∀ (row : List PValue) (i j : Nat) (f : PValue → PValue),
    i ≠ j → (setAt row i f).getD j PValue.nan = row.getD j PValue.nan := by
  intro row
  induction row with
  | nil => intro i j f _; rfl
  | cons v t ih =>
    intro i j f hij
    cases i with
    | zero =>
      cases j with
      | zero => exact absurd rfl hij
      | succ m => rfl
    | succ n =>
      cases j with
      | zero => rfl
      | succ m =>
        simp only [setAt, List.getD_cons_succ]
        exact ih n m f (fun h => hij (by rw [h]))

theorem setAt_getD_eq : ∀ (row : List PValue) (i : Nat) (f : PValue → PValue),
    i < row.length →
    (setAt row i f).getD i PValue.nan = f (row.getD i PValue.nan) := by
  intro row
  induction row with
  | nil => intro i f h; simp at h
  | cons v t ih =>
    intro i f h
    cases i with
    | zero => rfl
    | succ n =>
      simp only [setAt, List.getD_cons_succ]
      exact ih n f (by simpa using h)

theorem mapCol_cols (df : DF) (name : String) (f : PValue → PValue) :
    (mapCol df name f).cols = df.cols := by
  unfold mapCol
  cases colIdx? name df.cols with
  | none => rfl
  | some i => rfl

theorem colIdx?_some_lt (name : String) : ∀ (l : List String) (i : Nat),
    colIdx? name l = some i → i < l.length := by
  intro l
  induction l with
  | nil => intro i h; exact Option.noConfusion h
  | cons a t ih =>
    intro i h
    unfold colIdx? at h
    by_cases hp : (a == name) = true
    · rw [if_pos hp] at h
      cases h
      simp
    · rw [if_neg hp] at h
      cases hom : colIdx? name t with
      | none => rw [hom] at h; exact Option.noConfusion h
      | some j =>
        rw [hom] at h
        have h2 : some (j + 1) = some i := h
        cases h2
        simpa using Nat.succ_lt_succ (ih j hom)

theorem colIdx?_append_some (name : String) : ∀ (l1 l2 : List String) (i : Nat),
    colIdx? name l1 = some i → colIdx? name (l1 ++ l2) = some i := by
  intro l1
  induction l1 with
  | nil => intro l2 i h; exact Option.noConfusion h
  | cons a t ih =>
    intro l2 i h
    unfold colIdx? at h
    rw [List.cons_append]
    unfold colIdx?
    by_cases hp : (a == name) = true
    · rw [if_pos hp] at h ⊢
      exact h
    · rw [if_neg hp] at h ⊢
      cases hom : colIdx? name t with
      | none => rw [hom] at h; exact Option.noConfusion h
      | some j =>
        rw [hom] at h
        rw [ih l2 j hom]
        exact h

theorem colIdx?_append_self : ∀ (l : List String) (name : String),
    (∀ x ∈ l, (x == name) = false) →
    colIdx? name (l ++ [name]) = some l.length := by
  intro l
  induction l with
  | nil =>
    intro name _
    show colIdx? name [name] = some 0
    unfold colIdx?
    rw [if_pos (by simp)]
  | cons a t ih =>
    intro name h
    rw [List.cons_append]
    unfold colIdx?
    rw [if_neg (by simp [h a (List.mem_cons_self a t)]),
      ih name (fun x hx => h x (List.mem_cons_of_mem _ hx))]
    rfl

theorem getD_append_lt : ∀ (row l2 : List PValue) (j : Nat), j < row.length →
    (row ++ l2).getD j PValue.nan = row.getD j PValue.nan := by
  intro row
  induction row with
  | nil => intro l2 j h; simp at h
  | cons v t ih =>
    intro l2 j h
    cases j with
    | zero => rfl
    | succ m =>
      simpa using ih l2 m (by simpa using h)

theorem getD_append_len : ∀ (row : List PValue) (x : PValue),
    (row ++ [x]).getD row.length PValue.nan = x := by
  intro row
  induction row with
  | nil => intro x; rfl
  | cons v t ih => intro x; exact ih x

/-- Well-formedness: every row is as long as the header. -/
def dfWf (d : DF) : Prop := ∀ row ∈ d.rows, row.length = d.cols.length

theorem addStep_wf (d : DF) (c : String) (h : dfWf d) : dfWf (addStep d c) := by
  unfold addStep
  by_cases hc : d.cols.contains c
  · rw [if_pos hc]; exact h
  · rw [if_neg hc]
    intro row hrow
    obtain ⟨r, hr, rfl⟩ := List.mem_map.mp hrow
    simp [h r hr]

theorem addStep_cols_mono (d : DF) (c x : String) (h : x ∈ d.cols) :
    x ∈ (addStep d c).cols := by
  unfold addStep
  by_cases hc : d.cols.contains c
  · rw [if_pos hc]; exact h
  · rw [if_neg hc]; exact List.mem_append_left _ h

theorem foldl_addStep_wf : ∀ (L : List String) (d : DF), dfWf d →
    dfWf (L.foldl addStep d) := by
  intro L
  induction L with
  | nil => intro d h; exact h
  | cons c t ih => intro d h; exact ih _ (addStep_wf d c h)

theorem foldl_addStep_mono : ∀ (L : List String) (d : DF) (x : String),
    x ∈ d.cols → x ∈ (L.foldl addStep d).cols := by
  intro L
  induction L with
  | nil => intro d x h; exact h
  | cons c t ih => intro d x h; exact ih _ x (addStep_cols_mono d c x h)

theorem foldl_addStep_mem : ∀ (L : List String) (d : DF) (x : String),
    x ∈ L → x ∈ (L.foldl addStep d).cols := by
  intro L
  induction L with
  | nil => intro d x h; simp at h
  | cons c t ih =>
    intro d x h
    rcases List.mem_cons.mp h with rfl | hx
    · refine foldl_addStep_mono t _ x ?_
      unfold addStep
      by_cases hc : d.cols.contains x
      · rw [if_pos hc]; simpa using hc
      · rw [if_neg hc]; exact List.mem_append_right _ (List.mem_singleton.mpr rfl)
    · exact ih _ x hx

/-- The backfilled column reads as the empty string in every row. -/
def colBlank (c : String) (d : DF) : Prop :=
  ∀ row ∈ d.rows, cellGet d.cols row c = .s ""

theorem addStep_colBlank (d : DF) (c c2 : String) (hwf : dfWf d)
    (h : colBlank c d) : colBlank c (addStep d c2) := by
  unfold addStep
  by_cases hc : d.cols.contains c2
  · rw [if_pos hc]; exact h
  · rw [if_neg hc]
    intro row hrow
    obtain ⟨r, hr, rfl⟩ := List.mem_map.mp hrow
    have hcell := h r hr
    unfold cellGet at hcell ⊢
    cases hidx : colIdx? c d.cols with
    | none =>
      rw [hidx] at hcell
      exact absurd hcell (by simp)
    | some i =>
      rw [hidx] at hcell
      have hcell2 : r.getD i PValue.nan = PValue.s "" := hcell
      rw [colIdx?_append_some c d.cols [c2] i hidx]
      show (r ++ [PValue.s ""]).getD i PValue.nan = PValue.s ""
      rw [getD_append_lt r [PValue.s ""] i (by
        rw [hwf r hr]
        exact colIdx?_some_lt c d.cols i hidx)]
      exact hcell2

theorem foldl_addStep_colBlank : ∀ (L : List String) (d : DF) (c : String),
    dfWf d → colBlank c d → colBlank c (L.foldl addStep d) := by
  intro L
  induction L with
  | nil => intro d c _ h; exact h
  | cons c2 t ih =>
    intro d c hwf h
    exact ih _ c (addStep_wf d c2 hwf) (addStep_colBlank d c c2 hwf h)

theorem addStep_blank_of_not_mem (d : DF) (c : String) (hwf : dfWf d)
    (hnotin : c ∉ d.cols) : colBlank c (addStep d c) := by
  have hc : d.cols.contains c = false := by simpa using hnotin
  unfold addStep
  rw [hc]
  simp only [Bool.false_eq_true, if_false]
  intro row hrow
  obtain ⟨r, hr, rfl⟩ := List.mem_map.mp hrow
  unfold cellGet
  rw [colIdx?_append_self d.cols c
    (fun x hxx => beq_eq_false_iff_ne.mpr (fun hh => hnotin (hh ▸ hxx)))]
  show (r ++ [PValue.s ""]).getD d.cols.length PValue.nan = PValue.s ""
  rw [← hwf r hr]
  exact getD_append_len r (PValue.s "")

theorem foldl_addStep_establish : ∀ (L : List String) (d : DF) (c : String),
    dfWf d → c ∈ L → c ∉ d.cols → colBlank c (L.foldl addStep d) := by
  intro L
  induction L with
  | nil => intro d c _ h _; simp at h
  | cons c2 t ih =>
    intro d c hwf hmem hnotin
    rcases List.mem_cons.mp hmem with rfl | hx
    · exact foldl_addStep_colBlank t _ c (addStep_wf d c hwf)
        (addStep_blank_of_not_mem d c hwf hnotin)
    · by_cases hcc : c ∈ (addStep d c2).cols
      · unfold addStep at hcc
        by_cases hc2 : d.cols.contains c2
        · rw [if_pos hc2] at hcc
          exact absurd hcc hnotin
        · rw [if_neg hc2] at hcc
          rcases List.mem_append.mp hcc with hcl | hcr
          · exact absurd hcl hnotin
          · have hceq : c = c2 := List.mem_singleton.mp hcr
            subst hceq
            exact foldl_addStep_colBlank t _ c (addStep_wf d c hwf)
              (addStep_blank_of_not_mem d c hwf hnotin)
      · exact ih _ c (addStep_wf d c2 hwf) hx hcc

theorem read_csv_wf (contents : String) (df : DF)
    (h : read_csv contents = .ok df) : dfWf df := by
  unfold read_csv at h
  cases ht : tokenize contents with
  | nil => rw [ht] at h; exact Except.noConfusion h
  | cons header data =>
    rw [ht] at h
    dsimp only at h
    by_cases ha : data.any
        (fun r => max header.length (data.headD []).length < r.length) = true
    · rw [if_pos ha] at h
      exact Except.noConfusion h
    · rw [if_neg ha] at h
      simp only [Except.ok.injEq] at h
      subst h
      intro row hrow
      simp only [List.mem_map] at hrow
      obtain ⟨rp, ⟨r, hr, rfl⟩, rfl⟩ := hrow
      have hle : r.length ≤ max header.length (data.headD []).length := by
        by_contra hgt
        exact ha (List.any_eq_true.mpr ⟨r, hr, by
          simpa using Nat.lt_of_not_le hgt⟩)
      have hnw : header.length ≤ max header.length (data.headD []).length :=
        Nat.le_max_left _ _
      simp only [List.length_zipWith, List.length_map, List.length_range,
        List.length_drop, List.length_append, List.length_replicate]
      omega

theorem sortByReg_cols (df : DF) : (sortByReg df).cols = df.cols := rfl

theorem astypeRegStr_cols (df : DF) : (astypeRegStr df).cols = df.cols :=
  mapCol_cols df "Registration_No" (fun v => .s (pvStr v))

theorem colBlank_astype (df : DF) (c : String) (h : colBlank c df) :
    colBlank c (astypeRegStr df) := by
  unfold astypeRegStr mapCol
  cases hidx : colIdx? "Registration_No" df.cols with
  | none => exact h
  | some i =>
    intro row hrow
    obtain ⟨r, hr, rfl⟩ := List.mem_map.mp hrow
    have hcell := h r hr
    unfold cellGet at hcell ⊢
    cases hc : colIdx? c df.cols with
    | none =>
      rw [hc] at hcell
      exact absurd hcell (by simp)
    | some j =>
      rw [hc] at hcell
      have hcell2 : r.getD j PValue.nan = PValue.s "" := hcell
      show (setAt r i (fun v => .s (pvStr v))).getD j PValue.nan = PValue.s ""
      by_cases hij : i = j
      · subst hij
        by_cases hlen : i < r.length
        · rw [setAt_getD_eq r i _ hlen, hcell2]
          rfl
        · have : r.getD i PValue.nan = PValue.nan :=
            List.getD_eq_default _ _ (Nat.le_of_not_lt hlen)
          rw [this] at hcell2
          exact absurd hcell2 (by simp)
      · rw [setAt_getD_ne r i j _ hij]
        exact hcell2

theorem colBlank_sort (df : DF) (c : String) (h : colBlank c df) :
    colBlank c (sortByReg df) := by
  intro row hrow
  have hmem : row ∈ df.rows := by
    have := hrow
    simp only [sortByReg, List.mem_insertionSort] at this
    exact this
  exact h row hmem

theorem load_data_ok_cases (contents : String) (df : DF)
    (h : load_data (some contents) = .ok df) :
    (read_csv contents = .error .emptyData ∧ df = sortByReg emptyDF) ∨
    (∃ t, read_csv contents = .ok t ∧
      df = sortByReg (astypeRegStr (addMissing t))) := by
  cases hr : read_csv contents with
  | error e =>
    cases e with
    | emptyData =>
      simp only [load_data, hr, Except.ok.injEq] at h
      exact Or.inl ⟨rfl, h.symm⟩
    | parserError => simp [load_data, hr] at h
  | ok t =>
    simp only [load_data, hr, Except.ok.injEq] at h
    exact Or.inr ⟨t, rfl, h.symm⟩

/-- Claim C2 (amended): load never fails on a MISSING or EMPTY backing file —
both yield the empty schema collection; whenever the file parses, every
schema column is present in the result (a column missing from the file is
added with the empty-string default in every row) and the collection is
sorted by registration number.  A file that pandas cannot tokenize (a data
row wider than the table width established by the header and the first data
row) raises instead of yielding an empty collection — only the empty-file
error is caught (see the counterexample). -/
theorem c2_load_robustness :
    (load_data none = .ok emptyDF) ∧
    (load_data (some "") = .ok emptyDF) ∧
    (∀ (c : String) (df : DF), load_data (some c) = .ok df →
      ((∀ col ∈ columns, col ∈ df.cols) ∧ sortedByReg df)) ∧
    (∀ (c : String) (t df : DF), read_csv c = .ok t → load_data (some c) = .ok df →
      ∀ col ∈ columns, col ∉ t.cols →
        ∀ row ∈ df.rows, cellGet df.cols row col = .s "") := by
  refine ⟨by decide, by decide, ?_, ?_⟩
  · intro c df h
    refine ⟨?_, load_data_sorted (some c) df h⟩
    rcases load_data_ok_cases c df h with ⟨_, rfl⟩ | ⟨t, hrc, rfl⟩
    · intro col hcol
      rw [sortByReg_cols]
      exact hcol
    · intro col hcol
      rw [sortByReg_cols, astypeRegStr_cols]
      exact foldl_addStep_mem columns t col hcol
  · intro c t df hrc h col hcol hnot
    rcases load_data_ok_cases c df h with ⟨he, rfl⟩ | ⟨t2, hrc2, rfl⟩
    · rw [hrc] at he
      exact Except.noConfusion he
    · rw [hrc] at hrc2
      cases Except.ok.inj hrc2
      exact colBlank_sort _ col (colBlank_astype _ col
        (foldl_addStep_establish columns t col (read_csv_wf c t hrc) hcol hnot))

/-- Claim C2, the failing part: a corrupt file — here one whose SECOND data
row is wider than the table width established by the header and the first
data row — raises pandas' `ParserError`, which `load_data` does not catch;
the claim instead promises an empty collection for every corrupt file.  (A
first data row wider than the header is NOT corrupt: its leftmost extra
field becomes the implicit index and the read succeeds, second conjunct.) -/
theorem c2_counterexample :
    load_data (some "A|B\n1|2\n1|2|3") = .error .parserError ∧
    (read_csv "A|B\n1|2|3").toOption =
      some ⟨["A", "B"], [[.i 2, .i 3]]⟩ := by
  refine ⟨by decide, by decide⟩

theorem c2_load_robustness_witness :
    (load_data (some fileC1) = .ok df_c1 ∧
      ((∀ col ∈ columns, col ∈ df_c1.cols) ∧ sortedByReg df_c1)) ∧
    (read_csv fileC1 = .ok rc_c1 ∧ "Rating" ∈ columns ∧ "Rating" ∉ rc_c1.cols ∧
      ∀ row ∈ df_c1.rows, cellGet df_c1.cols row "Rating" = .s "") :=
  ⟨⟨by decide, (c2_load_robustness.2.2.1 fileC1 df_c1 (by decide))⟩,
   ⟨by decide, by decide, by decide,
    c2_load_robustness.2.2.2 fileC1 rc_c1 df_c1 (by decide) (by decide) "Rating"
      (by decide) (by decide)⟩⟩

/-! ### Round trip: the csv layer -/

theorem mk_data (s : String) : String.mk s.data = s := rfl

theorem tok_plain_run : ∀ (d : List Char), (∀ c ∈ d, c ≠ '|' ∧ c ≠ '\n') →
    ∀ (cs field : List Char) (row : List String) (acc : List (List String)),
    tok (d ++ cs) .inField field row acc = tok cs .inField (d.reverse ++ field) row acc := by
  intro d
  induction d with
  | nil => intro _ cs field row acc; simp
  | cons c d' ih =>
    intro h cs field row acc
    have hc := h c (List.mem_cons_self c d')
    rw [List.cons_append]
    show tok (c :: (d' ++ cs)) .inField field row acc = _
    simp only [tok, if_neg hc.1, if_neg hc.2]
    rw [ih (fun x hx => h x (List.mem_cons_of_mem _ hx)) cs (c :: field) row acc]
    simp

theorem tok_quoted_run : ∀ (d : List Char) (cs field : List Char)
    (row : List String) (acc : List (List String)),
    tok (escQ d ++ '"' :: cs) .inQuoted field row acc =
      tok cs .quoteInQuoted (d.reverse ++ field) row acc := by
  intro d
  induction d with
  | nil =>
    intro cs field row acc
    show tok ('"' :: cs) .inQuoted field row acc = _
    simp [tok]
  | cons c d' ih =>
    intro cs field row acc
    by_cases hq : c = '"'
    · subst hq
      show tok (escQ ('"' :: d') ++ '"' :: cs) .inQuoted field row acc = _
      have he : escQ ('"' :: d') = '"' :: '"' :: escQ d' := rfl
      rw [he, List.cons_append, List.cons_append]
      show tok ('"' :: ('"' :: (escQ d' ++ '"' :: cs))) .inQuoted field row acc = _
      simp only [tok, if_pos rfl]
      rw [ih cs ('"' :: field) row acc]
      simp
    · have he : escQ (c :: d') = c :: escQ d' := by
        show (if c = '"' then '"' :: '"' :: escQ d' else c :: escQ d') = c :: escQ d'
        rw [if_neg hq]
      rw [he, List.cons_append]
      show tok (c :: (escQ d' ++ '"' :: cs)) .inQuoted field row acc = _
      simp only [tok, if_neg hq]
      rw [ih cs (c :: field) row acc]
      simp

theorem plain_of_not_needsQuote (s : String) (hq : ¬needsQuote s = true) :
    ∀ c ∈ s.data, ¬c = '|' ∧ ¬c = '"' ∧ ¬c = '\n' := by
  have hana : s.data.any
      (fun c => c == '|' || c == '"' || c == '\n' || c == '\r') = false := by
    simpa [needsQuote] using hq
  intro c hcm
  have hf := List.any_eq_false.mp hana c hcm
  have hf2 : ((¬c = '|' ∧ ¬c = '"') ∧ ¬c = '\n') ∧ ¬c = '\r' := by simpa using hf
  exact ⟨hf2.1.1.1, hf2.1.1.2, hf2.1.2⟩

theorem tok_field_delim (s : String) (cs : List Char) (row : List String)
    (acc : List (List String)) :
    tok (renderField s ++ '|' :: cs) .fieldStart [] row acc =
      tok cs .fieldStart [] (s :: row) acc := by
  unfold renderField
  by_cases hq : needsQuote s = true
  · rw [if_pos hq]
    have hsh : ('"' :: (escQ s.data ++ ['"'])) ++ '|' :: cs =
        '"' :: (escQ s.data ++ '"' :: ('|' :: cs)) := by simp
    rw [hsh]
    show tok ('"' :: (escQ s.data ++ '"' :: ('|' :: cs))) .fieldStart [] row acc = _
    simp only [tok, if_pos rfl]
    rw [tok_quoted_run s.data ('|' :: cs) [] row acc]
    simp [tok, mk_data]
  · rw [if_neg hq]
    have hplain := plain_of_not_needsQuote s hq
    cases hsd : s.data with
    | nil =>
      have hs : s = "" := by rw [← mk_data s, hsd]
      subst hs
      show tok ("".data ++ '|' :: cs) .fieldStart [] row acc = _
      simp [tok]
    | cons c d =>
      rw [List.cons_append]
      have hc := hplain c (hsd ▸ List.mem_cons_self c d)
      show tok (c :: (d ++ '|' :: cs)) .fieldStart [] row acc = _
      simp only [tok, if_neg hc.1, if_neg hc.2.1, if_neg hc.2.2]
      rw [tok_plain_run d (fun x hx =>
          ⟨(hplain x (hsd ▸ List.mem_cons_of_mem _ hx)).1,
           (hplain x (hsd ▸ List.mem_cons_of_mem _ hx)).2.2⟩)
        ('|' :: cs) [c] row acc]
      have hmk : String.mk (c :: d) = s := by
        rw [← hsd]
      simp [tok, hmk]

theorem tok_field_newline (s : String) (cs : List Char) (row : List String)
    (acc : List (List String)) :
    tok (renderField s ++ '\n' :: cs) .fieldStart [] row acc =
      tok cs .fieldStart [] [] ((s :: row).reverse :: acc) := by
  unfold renderField
  by_cases hq : needsQuote s = true
  · rw [if_pos hq]
    have hsh : ('"' :: (escQ s.data ++ ['"'])) ++ '\n' :: cs =
        '"' :: (escQ s.data ++ '"' :: ('\n' :: cs)) := by simp
    rw [hsh]
    show tok ('"' :: (escQ s.data ++ '"' :: ('\n' :: cs))) .fieldStart [] row acc = _
    simp only [tok, if_pos rfl]
    rw [tok_quoted_run s.data ('\n' :: cs) [] row acc]
    simp [tok, mk_data]
  · rw [if_neg hq]
    have hplain := plain_of_not_needsQuote s hq
    cases hsd : s.data with
    | nil =>
      have hs : s = "" := by rw [← mk_data s, hsd]
      subst hs
      show tok ("".data ++ '\n' :: cs) .fieldStart [] row acc = _
      simp [tok]
    | cons c d =>
      rw [List.cons_append]
      have hc := hplain c (hsd ▸ List.mem_cons_self c d)
      show tok (c :: (d ++ '\n' :: cs)) .fieldStart [] row acc = _
      simp only [tok, if_neg hc.1, if_neg hc.2.1, if_neg hc.2.2]
      rw [tok_plain_run d (fun x hx =>
          ⟨(hplain x (hsd ▸ List.mem_cons_of_mem _ hx)).1,
           (hplain x (hsd ▸ List.mem_cons_of_mem _ hx)).2.2⟩)
        ('\n' :: cs) [c] row acc]
      have hmk : String.mk (c :: d) = s := by
        rw [← hsd]
      simp [tok, hc.1, hc.2.2, hmk]

theorem tok_row : ∀ (fields : List String), fields ≠ [] →
    ∀ (cs : List Char) (row : List String) (acc : List (List String)),
    tok (renderFields fields ++ '\n' :: cs) .fieldStart [] row acc =
      tok cs .fieldStart [] [] ((row.reverse ++ fields) :: acc) := by
  intro fields
  induction fields with
  | nil => intro h; exact absurd rfl h
  | cons s rest ih =>
    intro _ cs row acc
    cases rest with
    | nil =>
      show tok (renderField s ++ '\n' :: cs) .fieldStart [] row acc = _
      rw [tok_field_newline]
      simp
    | cons f2 r2 =>
      show tok ((renderField s ++ '|' :: renderFields (f2 :: r2)) ++ '\n' :: cs)
          .fieldStart [] row acc = _
      rw [List.append_assoc, List.cons_append]
      rw [tok_field_delim s (renderFields (f2 :: r2) ++ '\n' :: cs) row acc]
      rw [ih (by simp) cs (s :: row) acc]
      simp

theorem tok_table : ∀ (rows : List (List String)), (∀ r ∈ rows, r ≠ []) →
    ∀ (acc : List (List String)),
    tok (renderTable rows) .fieldStart [] [] acc = acc.reverse ++ rows := by
  intro rows
  induction rows with
  | nil =>
    intro _ acc
    show tok [] .fieldStart [] [] acc = _
    simp [tok]
  | cons r rest ih =>
    intro h acc
    show tok (renderFields r ++ '\n' :: renderTable rest) .fieldStart [] [] acc = _
    rw [tok_row r (h r (List.mem_cons_self r rest)) (renderTable rest) [] acc]
    rw [ih (fun x hx => h x (List.mem_cons_of_mem _ hx)) (([].reverse ++ r) :: acc)]
    simp

theorem tokenize_render (rows : List (List String))
    (hne : ∀ r ∈ rows, r ≠ []) (hnb : ∀ r ∈ rows, ¬r = [""]) :
    tokenize (String.mk (renderTable rows)) = rows := by
  unfold tokenize
  rw [show (String.mk (renderTable rows)).data = renderTable rows from rfl]
  rw [tok_table rows hne []]
  show List.filter (fun r => !r == [""]) rows = rows
  rw [List.filter_eq_self]
  intro r hr
  simpa using hnb r hr

/-! ### Round trip: the numeric cells -/

set_option maxHeartbeats 2000000 in
set_option maxRecDepth 10000 in
theorem float_cell_ok : ∀ m : Nat, m < 201 →
    (parseIntS (floatStr (mkRat ((m : Int) - 100) 100)) = none ∧
     naTokens.contains (floatStr (mkRat ((m : Int) - 100) 100)) = false ∧
     parseFloatS (floatStr (mkRat ((m : Int) - 100) 100)) =
       some (mkRat ((m : Int) - 100) 100)) := by decide

theorem int_cell_ok : ∀ m : Nat, m < 10 →
    (parseIntS (intStr ((m : Int) + 1)) = some ((m : Int) + 1) ∧
     naTokens.contains (intStr ((m : Int) + 1)) = false) := by decide

theorem twoDec_rep (q : ℚ) (h : twoDecB q = true) :
    ∃ m : Nat, m < 201 ∧ q = mkRat ((m : Int) - 100) 100 := by
  unfold twoDecB at h
  simp only [Bool.and_eq_true, decide_eq_true_eq] at h
  obtain ⟨⟨hdvd, hlow⟩, hhigh⟩ := h
  have hden_pos : 0 < (q.den : Int) := by exact_mod_cast q.pos
  have hdd : ((100 / q.den : Nat) : Int) * (q.den : Int) = 100 := by
    exact_mod_cast Nat.div_mul_cancel hdvd
  have hc_nonneg : 0 ≤ ((100 / q.den : Nat) : Int) := Int.natCast_nonneg _
  have hkb1 : -100 ≤ q.num * ((100 / q.den : Nat) : Int) := by nlinarith
  have hkb2 : q.num * ((100 / q.den : Nat) : Int) ≤ 100 := by nlinarith
  refine ⟨(q.num * ((100 / q.den : Nat) : Int) + 100).toNat, by omega, ?_⟩
  have htn : (((q.num * ((100 / q.den : Nat) : Int) + 100).toNat : Int)) =
      q.num * ((100 / q.den : Nat) : Int) + 100 :=
    Int.toNat_of_nonneg (by omega)
  rw [htn]
  have hsimp : q.num * ((100 / q.den : Nat) : Int) + 100 - 100 =
      q.num * ((100 / q.den : Nat) : Int) := by ring
  rw [hsimp, Rat.mkRat_eq_div]
  have hdq : (q.den : ℚ) ≠ 0 := Nat.cast_ne_zero.mpr q.den_nz
  have hddQ : ((100 / q.den : Nat) : ℚ) * (q.den : ℚ) = 100 := by
    exact_mod_cast hdd
  have hnum : ((q.num * ((100 / q.den : Nat) : Int) : Int) : ℚ) =
      (q.num : ℚ) * ((100 / q.den : Nat) : ℚ) := by
    rw [Int.cast_mul, Int.cast_natCast]
  rw [hnum]
  have h100 : (((100 : Nat)) : ℚ) = (100 : ℚ) := by norm_num
  rw [h100, eq_div_iff (by norm_num : (100 : ℚ) ≠ 0)]
  have hq : q * (q.den : ℚ) = (q.num : ℚ) :=
    ((div_eq_iff hdq).mp (Rat.num_div_den q)).symm
  linear_combination ((100 / q.den : Nat) : ℚ) * hq - q * hddQ

theorem int_rep (rt : Int) (h1 : 1 ≤ rt) (h2 : rt ≤ 10) :
    parseIntS (intStr rt) = some rt ∧ naTokens.contains (intStr rt) = false := by
  have hm : rt = ((rt - 1).toNat : Int) + 1 := by omega
  have hlt : (rt - 1).toNat < 10 := by omega
  rw [hm]
  exact int_cell_ok _ hlt

theorem float_cell_facts (q : ℚ) (h : twoDecB q = true) :
    parseIntS (floatStr q) = none ∧ naTokens.contains (floatStr q) = false ∧
      parseFloatS (floatStr q) = some q := by
  obtain ⟨m, hm, rfl⟩ := twoDec_rep q h
  exact float_cell_ok m hm

theorem safeStr_facts (s : String) (h : safeStrB s = true) :
    naTokens.contains s = false ∧ parseIntS s = none ∧ parseFloatS s = none := by
  unfold safeStrB at h
  simp only [Bool.and_eq_true, Bool.not_eq_true', Option.isNone_iff_eq_none] at h
  exact ⟨h.1.1.1.1, h.1.1.1.2, h.1.1.2⟩

theorem colDtype_obj (cells : List String) (c0 : String) (hc0 : c0 ∈ cells)
    (h0i : parseIntS c0 = none) (h0f : parseFloatS c0 = none)
    (h0na : naTokens.contains c0 = false) : colDtype cells = .obj := by
  unfold colDtype
  have h1 : cells.all (fun c => (parseIntS c).isSome) = false := by
    cases hall : cells.all (fun c => (parseIntS c).isSome) with
    | false => rfl
    | true =>
      have := List.all_eq_true.mp hall c0 hc0
      rw [h0i] at this
      exact absurd this (by simp)
  have h2 : cells.all
      (fun c => naTokens.contains c || (parseFloatS c).isSome) = false := by
    cases hall : cells.all
        (fun c => naTokens.contains c || (parseFloatS c).isSome) with
    | false => rfl
    | true =>
      have := List.all_eq_true.mp hall c0 hc0
      rw [h0na, h0f] at this
      exact absurd this (by simp)
  rw [if_neg (by rw [h1]; exact Bool.false_ne_true),
    if_neg (by rw [h2]; exact Bool.false_ne_true)]

theorem colDtype_float (cells : List String) (c0 : String) (hc0 : c0 ∈ cells)
    (h0i : parseIntS c0 = none)
    (hall : ∀ c ∈ cells, (parseFloatS c).isSome = true) :
    colDtype cells = .float := by
  unfold colDtype
  have h1 : cells.all (fun c => (parseIntS c).isSome) = false := by
    cases hall2 : cells.all (fun c => (parseIntS c).isSome) with
    | false => rfl
    | true =>
      have := List.all_eq_true.mp hall2 c0 hc0
      rw [h0i] at this
      exact absurd this (by simp)
  have h2 : cells.all
      (fun c => naTokens.contains c || (parseFloatS c).isSome) = true :=
    List.all_eq_true.mpr (fun c hc => by simp [hall c hc])
  rw [if_neg (by rw [h1]; exact Bool.false_ne_true), if_pos h2]

theorem colDtype_int (cells : List String)
    (hall : ∀ c ∈ cells, (parseIntS c).isSome = true) : colDtype cells = .int := by
  unfold colDtype
  rw [if_pos (List.all_eq_true.mpr hall)]

theorem applyDtype_obj (s : String) (h : naTokens.contains s = false) :
    applyDtype .obj s = .s s := by
  unfold applyDtype
  rw [if_neg (by rw [h]; exact Bool.false_ne_true)]

theorem applyDtype_float (s : String) (q : ℚ) (hna : naTokens.contains s = false)
    (hp : parseFloatS s = some q) : applyDtype .float s = .f q := by
  unfold applyDtype
  rw [if_neg (by rw [hna]; exact Bool.false_ne_true), hp]

theorem applyDtype_int (s : String) (n : Int) (hna : naTokens.contains s = false)
    (hp : parseIntS s = some n) : applyDtype .int s = .i n := by
  unfold applyDtype
  rw [if_neg (by rw [hna]; exact Bool.false_ne_true), hp]

theorem map_congr_mem {α β : Type} (l : List α) (f g : α → β)
    (h : ∀ a ∈ l, f a = g a) : l.map f = l.map g := by
  induction l with
  | nil => rfl
  | cons a t ih =>
    simp only [List.map_cons, h a (List.mem_cons_self a t)]
    rw [ih (fun x hx => h x (List.mem_cons_of_mem _ hx))]

theorem recOk_unpack (r : Rec) (h : recOkB r = true) :
    safeStrB r.reg = true ∧ safeStrB r.name = true ∧ safeStrB r.course = true ∧
    safeStrB r.feedback = true ∧ safeStrB r.sentiment = true ∧
    twoDecB r.score = true ∧ twoDecB r.subj = true ∧ safeStrB r.emotions = true ∧
    safeStrB r.keyPhrases = true ∧ 1 ≤ r.rating ∧ r.rating ≤ 10 ∧
    safeStrB r.date = true := by
  unfold recOkB at h
  simp only [Bool.and_eq_true, decide_eq_true_eq] at h
  exact ⟨h.1.1.1.1.1.1.1.1.1.1.1, h.1.1.1.1.1.1.1.1.1.1.2, h.1.1.1.1.1.1.1.1.1.2,
    h.1.1.1.1.1.1.1.1.2, h.1.1.1.1.1.1.1.2, h.1.1.1.1.1.1.2, h.1.1.1.1.1.2,
    h.1.1.1.1.2, h.1.1.1.2, h.1.1.2, h.1.2, h.2⟩

theorem serRec_eq (r : Rec) : serRec r =
    [r.reg, r.name, r.course, r.feedback, r.sentiment, floatStr r.score,
     floatStr r.subj, r.emotions, r.keyPhrases, intStr r.rating, r.date] := rfl

set_option maxHeartbeats 2000000 in
/-- Claim C3 (amended): for every sorted collection of records of the shape
`add_feedback` builds — provided every free-form string field is "safe" (not
empty, not an NA token such as the literal "None", not a numeric/bool/inf
literal), the scores are two-decimal values in [-1, 1] and the rating is in
[1, 10] — `save_data` followed by `load_data` reproduces exactly the same
collection.  The safety conditions are forced by the counterexample: pandas
reads the serialized literal "None" (and the empty string) back as NaN, not
as the string the claim promises. -/
theorem c3_roundtrip_amended (recs : List Rec)
    (hok : recs.all recOkB = true)
    (hsorted : recs.Pairwise (fun a b => strLeB a.reg b.reg = true)) :
    load_data (some (save_data (dfOf recs))) = .ok (dfOf recs) := by
  cases recs with
  | nil => decide
  | cons r0 rest =>
    have hokAll : ∀ r ∈ r0 :: rest, recOkB r = true :=
      fun r hr => List.all_eq_true.mp hok r hr
    have u0 := recOk_unpack r0 (hokAll r0 (List.mem_cons_self r0 rest))
    have hsave : save_data (dfOf (r0 :: rest)) =
        String.mk (renderTable (columns :: (r0 :: rest).map serRec)) := by
      unfold save_data dfOf serRec
      rw [List.map_map]
      rfl
    have htok : tokenize (save_data (dfOf (r0 :: rest))) =
        columns :: (r0 :: rest).map serRec := by
      rw [hsave]
      refine tokenize_render _ ?_ ?_
      · intro r hr
        rcases List.mem_cons.mp hr with rfl | hr2
        · decide
        · obtain ⟨rec, _, rfl⟩ := List.mem_map.mp hr2
          rw [serRec_eq]
          simp
      · intro r hr
        rcases List.mem_cons.mp hr with rfl | hr2
        · decide
        · obtain ⟨rec, _, rfl⟩ := List.mem_map.mp hr2
          rw [serRec_eq]
          simp
    have hlen : ∀ r ∈ (r0 :: rest).map serRec, r.length = columns.length := by
      intro r hr
      obtain ⟨rec, _, rfl⟩ := List.mem_map.mp hr
      rw [serRec_eq]
      rfl
    have hcells : ∀ i : Nat,
        (((r0 :: rest).map serRec).map (fun r => r.getD i "")) =
          (r0 :: rest).map (fun rec => (serRec rec).getD i "") := by
      intro i
      rw [List.map_map]
      rfl
    have hd0 : colDtype (((r0 :: rest).map serRec).map (fun r => r.getD 0 "")) =
        Dtype.obj := by
      rw [hcells]
      refine colDtype_obj _ ((serRec r0).getD 0 "")
        (List.mem_map_of_mem _ (List.mem_cons_self r0 rest)) ?_ ?_ ?_
      · exact (safeStr_facts _ u0.1).2.1
      · exact (safeStr_facts _ u0.1).2.2
      · exact (safeStr_facts _ u0.1).1
    have hd1 : colDtype (((r0 :: rest).map serRec).map (fun r => r.getD 1 "")) =
        Dtype.obj := by
      rw [hcells]
      refine colDtype_obj _ ((serRec r0).getD 1 "")
        (List.mem_map_of_mem _ (List.mem_cons_self r0 rest)) ?_ ?_ ?_
      · exact (safeStr_facts _ u0.2.1).2.1
      · exact (safeStr_facts _ u0.2.1).2.2
      · exact (safeStr_facts _ u0.2.1).1
    have hd2 : colDtype (((r0 :: rest).map serRec).map (fun r => r.getD 2 "")) =
        Dtype.obj := by
      rw [hcells]
      refine colDtype_obj _ ((serRec r0).getD 2 "")
        (List.mem_map_of_mem _ (List.mem_cons_self r0 rest)) ?_ ?_ ?_
      · exact (safeStr_facts _ u0.2.2.1).2.1
      · exact (safeStr_facts _ u0.2.2.1).2.2
      · exact (safeStr_facts _ u0.2.2.1).1
    have hd3 : colDtype (((r0 :: rest).map serRec).map (fun r => r.getD 3 "")) =
        Dtype.obj := by
      rw [hcells]
      refine colDtype_obj _ ((serRec r0).getD 3 "")
        (List.mem_map_of_mem _ (List.mem_cons_self r0 rest)) ?_ ?_ ?_
      · exact (safeStr_facts _ u0.2.2.2.1).2.1
      · exact (safeStr_facts _ u0.2.2.2.1).2.2
      · exact (safeStr_facts _ u0.2.2.2.1).1
    have hd4 : colDtype (((r0 :: rest).map serRec).map (fun r => r.getD 4 "")) =
        Dtype.obj := by
      rw [hcells]
      refine colDtype_obj _ ((serRec r0).getD 4 "")
        (List.mem_map_of_mem _ (List.mem_cons_self r0 rest)) ?_ ?_ ?_
      · exact (safeStr_facts _ u0.2.2.2.2.1).2.1
      · exact (safeStr_facts _ u0.2.2.2.2.1).2.2
      · exact (safeStr_facts _ u0.2.2.2.2.1).1
    have hd7 : colDtype (((r0 :: rest).map serRec).map (fun r => r.getD 7 "")) =
        Dtype.obj := by
      rw [hcells]
      refine colDtype_obj _ ((serRec r0).getD 7 "")
        (List.mem_map_of_mem _ (List.mem_cons_self r0 rest)) ?_ ?_ ?_
      · exact (safeStr_facts _ u0.2.2.2.2.2.2.2.1).2.1
      · exact (safeStr_facts _ u0.2.2.2.2.2.2.2.1).2.2
      · exact (safeStr_facts _ u0.2.2.2.2.2.2.2.1).1
    have hd8 : colDtype (((r0 :: rest).map serRec).map (fun r => r.getD 8 "")) =
        Dtype.obj := by
      rw [hcells]
      refine colDtype_obj _ ((serRec r0).getD 8 "")
        (List.mem_map_of_mem _ (List.mem_cons_self r0 rest)) ?_ ?_ ?_
      · exact (safeStr_facts _ u0.2.2.2.2.2.2.2.2.1).2.1
      · exact (safeStr_facts _ u0.2.2.2.2.2.2.2.2.1).2.2
      · exact (safeStr_facts _ u0.2.2.2.2.2.2.2.2.1).1
    have hd10 : colDtype (((r0 :: rest).map serRec).map (fun r => r.getD 10 "")) =
        Dtype.obj := by
      rw [hcells]
      refine colDtype_obj _ ((serRec r0).getD 10 "")
        (List.mem_map_of_mem _ (List.mem_cons_self r0 rest)) ?_ ?_ ?_
      · exact (safeStr_facts _ u0.2.2.2.2.2.2.2.2.2.2.2).2.1
      · exact (safeStr_facts _ u0.2.2.2.2.2.2.2.2.2.2.2).2.2
      · exact (safeStr_facts _ u0.2.2.2.2.2.2.2.2.2.2.2).1
    have hd5 : colDtype (((r0 :: rest).map serRec).map (fun r => r.getD 5 "")) =
        Dtype.float := by
      rw [hcells]
      refine colDtype_float _ ((serRec r0).getD 5 "")
        (List.mem_map_of_mem _ (List.mem_cons_self r0 rest)) ?_ ?_
      · exact (float_cell_facts r0.score u0.2.2.2.2.2.1).1
      · intro c hc
        obtain ⟨rec, hrec, rfl⟩ := List.mem_map.mp hc
        have u := recOk_unpack rec (hokAll rec hrec)
        have hf := (float_cell_facts rec.score u.2.2.2.2.2.1).2.2
        show (parseFloatS ((serRec rec).getD 5 "")).isSome = true
        rw [show (serRec rec).getD 5 "" = floatStr rec.score from rfl, hf]
        rfl
    have hd6 : colDtype (((r0 :: rest).map serRec).map (fun r => r.getD 6 "")) =
        Dtype.float := by
      rw [hcells]
      refine colDtype_float _ ((serRec r0).getD 6 "")
        (List.mem_map_of_mem _ (List.mem_cons_self r0 rest)) ?_ ?_
      · exact (float_cell_facts r0.subj u0.2.2.2.2.2.2.1).1
      · intro c hc
        obtain ⟨rec, hrec, rfl⟩ := List.mem_map.mp hc
        have u := recOk_unpack rec (hokAll rec hrec)
        have hf := (float_cell_facts rec.subj u.2.2.2.2.2.2.1).2.2
        show (parseFloatS ((serRec rec).getD 6 "")).isSome = true
        rw [show (serRec rec).getD 6 "" = floatStr rec.subj from rfl, hf]
        rfl
    have hd9 : colDtype (((r0 :: rest).map serRec).map (fun r => r.getD 9 "")) =
        Dtype.int := by
      rw [hcells]
      refine colDtype_int _ ?_
      intro c hc
      obtain ⟨rec, hrec, rfl⟩ := List.mem_map.mp hc
      have u := recOk_unpack rec (hokAll rec hrec)
      have hi := (int_rep rec.rating u.2.2.2.2.2.2.2.2.2.1 u.2.2.2.2.2.2.2.2.2.2.1).1
      show (parseIntS ((serRec rec).getD 9 "")).isSome = true
      rw [show (serRec rec).getD 9 "" = intStr rec.rating from rfl, hi]
      rfl
    have hzip : ∀ rec ∈ r0 :: rest, List.zipWith applyDtype
        [Dtype.obj, Dtype.obj, Dtype.obj, Dtype.obj, Dtype.obj, Dtype.float,
         Dtype.float, Dtype.obj, Dtype.obj, Dtype.int, Dtype.obj]
        (serRec rec) = recRow rec := by
      intro rec hrec
      have u := recOk_unpack rec (hokAll rec hrec)
      have fsc := float_cell_facts rec.score u.2.2.2.2.2.1
      have fsj := float_cell_facts rec.subj u.2.2.2.2.2.2.1
      have irt := int_rep rec.rating u.2.2.2.2.2.2.2.2.2.1 u.2.2.2.2.2.2.2.2.2.2.1
      rw [serRec_eq]
      simp only [List.zipWith_cons_cons, List.zipWith_nil_right]
      rw [applyDtype_obj _ (safeStr_facts _ u.1).1,
        applyDtype_obj _ (safeStr_facts _ u.2.1).1,
        applyDtype_obj _ (safeStr_facts _ u.2.2.1).1,
        applyDtype_obj _ (safeStr_facts _ u.2.2.2.1).1,
        applyDtype_obj _ (safeStr_facts _ u.2.2.2.2.1).1,
        applyDtype_float _ _ fsc.2.1 fsc.2.2,
        applyDtype_float _ _ fsj.2.1 fsj.2.2,
        applyDtype_obj _ (safeStr_facts _ u.2.2.2.2.2.2.2.1).1,
        applyDtype_obj _ (safeStr_facts _ u.2.2.2.2.2.2.2.2.1).1,
        applyDtype_int _ _ irt.2 irt.1,
        applyDtype_obj _ (safeStr_facts _ u.2.2.2.2.2.2.2.2.2.2.2).1]
      rfl
    have hread : read_csv (save_data (dfOf (r0 :: rest))) =
        .ok ⟨columns, (r0 :: rest).map recRow⟩ := by
      unfold read_csv
      rw [htok]
      dsimp only
      have hw : max columns.length (((r0 :: rest).map serRec).headD []).length =
          columns.length := by
        rw [show (((r0 :: rest).map serRec).headD []).length = columns.length
          from hlen _ (List.mem_map_of_mem serRec (List.mem_cons_self r0 rest))]
        exact Nat.max_self _
      rw [hw]
      have hany : ((r0 :: rest).map serRec).any
          (fun r => columns.length < r.length) = false :=
        List.any_eq_false.mpr (fun r hr => by rw [hlen r hr]; simp)
      rw [if_neg (by rw [hany]; exact Bool.false_ne_true)]
      have hpad : ((r0 :: rest).map serRec).map
          (fun r => (r ++ List.replicate (columns.length - r.length) "").drop
            (columns.length - columns.length)) =
          (r0 :: rest).map serRec := by
        refine map_eq_self_of _ _ (fun r hr => ?_)
        rw [hlen r hr]
        simp
      rw [hpad]
      have hrange : List.range columns.length = [0, 1, 2, 3, 4, 5, 6, 7, 8, 9, 10] := by
        decide
      have hdts : List.map (fun i => colDtype (List.map (fun r => r.getD i "")
          (List.map serRec (r0 :: rest)))) [0, 1, 2, 3, 4, 5, 6, 7, 8, 9, 10] =
          [Dtype.obj, Dtype.obj, Dtype.obj, Dtype.obj, Dtype.obj, Dtype.float,
           Dtype.float, Dtype.obj, Dtype.obj, Dtype.int, Dtype.obj] := by
        show [colDtype (List.map (fun r => r.getD 0 "") (List.map serRec (r0 :: rest))),
              colDtype (List.map (fun r => r.getD 1 "") (List.map serRec (r0 :: rest))),
              colDtype (List.map (fun r => r.getD 2 "") (List.map serRec (r0 :: rest))),
              colDtype (List.map (fun r => r.getD 3 "") (List.map serRec (r0 :: rest))),
              colDtype (List.map (fun r => r.getD 4 "") (List.map serRec (r0 :: rest))),
              colDtype (List.map (fun r => r.getD 5 "") (List.map serRec (r0 :: rest))),
              colDtype (List.map (fun r => r.getD 6 "") (List.map serRec (r0 :: rest))),
              colDtype (List.map (fun r => r.getD 7 "") (List.map serRec (r0 :: rest))),
              colDtype (List.map (fun r => r.getD 8 "") (List.map serRec (r0 :: rest))),
              colDtype (List.map (fun r => r.getD 9 "") (List.map serRec (r0 :: rest))),
              colDtype (List.map (fun r => r.getD 10 "") (List.map serRec (r0 :: rest)))] = _
        rw [hd0, hd1, hd2, hd3, hd4, hd5, hd6, hd7, hd8, hd9, hd10]
      rw [hrange, hdts]
      have hrows : List.map (fun r => List.zipWith applyDtype
          [Dtype.obj, Dtype.obj, Dtype.obj, Dtype.obj, Dtype.obj, Dtype.float,
           Dtype.float, Dtype.obj, Dtype.obj, Dtype.int, Dtype.obj] r)
          (List.map serRec (r0 :: rest)) = List.map recRow (r0 :: rest) := by
        rw [List.map_map]
        exact map_congr_mem _ _ _ (fun rec hrec => hzip rec hrec)
      rw [hrows]
    simp only [load_data, hread]
    have haddM : addMissing ⟨columns, (r0 :: rest).map recRow⟩ =
        ⟨columns, (r0 :: rest).map recRow⟩ := rfl
    rw [haddM]
    have hast : astypeRegStr ⟨columns, (r0 :: rest).map recRow⟩ =
        ⟨columns, (r0 :: rest).map recRow⟩ := by
      unfold astypeRegStr mapCol
      show (⟨columns, ((r0 :: rest).map recRow).map
        (fun r => setAt r 0 (fun v => .s (pvStr v)))⟩ : DF) = _
      refine congrArg (fun rws => DF.mk columns rws) ?_
      refine map_eq_self_of _ _ (fun row hrow => ?_)
      obtain ⟨rec, _, rfl⟩ := List.mem_map.mp hrow
      rfl
    rw [hast]
    have hsort : sortByReg ⟨columns, (r0 :: rest).map recRow⟩ =
        ⟨columns, (r0 :: rest).map recRow⟩ := by
      unfold sortByReg
      refine congrArg (fun rws => DF.mk columns rws) ?_
      exact List.Sorted.insertionSort_eq (List.pairwise_map.mpr hsorted)
    rw [hsort]
    rfl

set_option maxRecDepth 10000 in
set_option maxHeartbeats 2000000 in
/-- Claim C3, the part that fails: a record built by `add_feedback` from a
feedback text with no emotion keyword and fewer than 3 words stores the
literal "None" in `Emotions`, but after `save_data` followed by `load_data`
that cell is NaN — "None" is one of pandas' default NA tokens, so the exact
round trip of the claim fails on the very literals it singles out. -/
theorem c3_counterexample :
    cellGet df_c3.cols (df_c3.rows.getD 0 []) "Emotions" = PValue.s "None" ∧
    cellGet (roundTripped df_c3).cols
      ((roundTripped df_c3).rows.getD 0 []) "Emotions" = PValue.nan ∧
    PValue.s "None" ≠ PValue.nan := by
  refine ⟨by decide, by decide, by decide⟩

theorem c3_roundtrip_amended_witness :
    (recsC3w.all recOkB = true ∧
      recsC3w.Pairwise (fun a b => strLeB a.reg b.reg = true)) ∧
    load_data (some (save_data (dfOf recsC3w))) = .ok (dfOf recsC3w) :=
  ⟨⟨by decide, by decide⟩,
   c3_roundtrip_amended recsC3w (by decide) (by decide)⟩
